import Mathlib

set_option maxHeartbeats 1000000

/-!
Formal model of the Cardiac-Monitoring-System pipeline.

Each definition is a shallow embedding of a function of the C++ source:

* `RingBuffer` and its operations follow `include/ring_buffer.h`
  (`AddData`, `Consume`, `TryConsume`, `Shutdown`, `Empty`, `Full`, `Size`).
* The ECG analyzer state machine follows `src/ecg_analyzer.cpp`
  (`ProcessSample`, `DetectRPeaks`, `IsRPeak`, `ProcessCompleteBeats`,
  `FindLowest`, `FindHighest`, `TransferProcessedSamples`,
  `ApplyClassifications`).  `size_t` arithmetic on beat positions is modelled
  exactly, with wrap-around modulo `2 ^ 64`.
* The acquisition-loop resynchronisation tail follows
  `src/application.cpp` (`Application::AcquisitionLoop`).
* The binary sample record follows `src/file_manager.cpp`
  (`FileManager::WriteSample`); `float` voltages are idealised as rationals
  and the byte order is the little-endian order of the target platform.
* The TCP file server follows `tcp_file_server.cpp`
  (`SendAvailableFiles`, `GetAvailableFiles`, `SendFile`, `SendError`), with
  the network modelled as a reliable trace of send events.
-/

namespace CardiacMonitor

/-! ### Ring buffer (`include/ring_buffer.h`) -/

/-- State of `RingBuffer<T>`: backing vector, `head_`, `tail_`, `max_size_`,
`full_` and `shutdown_`. -/
structure RingBuffer (α : Type) where
  buffer : List α
  head : Nat
  tail : Nat
  maxSize : Nat
  full : Bool
  shutdown : Bool
  deriving Repr, DecidableEq

/-- The constructor `RingBuffer(size)`: default-initialised storage, empty,
not shut down. -/
def mkRingBuffer (α : Type) [Inhabited α] (size : Nat) : RingBuffer α :=
  { buffer := List.replicate size default, head := 0, tail := 0,
    maxSize := size, full := false, shutdown := false }

/-- `Empty()`: `!full_ && (head_ == tail_)`. -/
def RingBuffer.emptyB {α : Type} (s : RingBuffer α) : Bool :=
  !s.full && (s.head == s.tail)

/-- `Size()`: number of unread elements, computed exactly as in the source. -/
def RingBuffer.sizeRB {α : Type} (s : RingBuffer α) : Nat :=
  if !s.full then
    (if s.head ≥ s.tail then s.head - s.tail else s.maxSize + s.head - s.tail)
  else s.maxSize

/-- `AddData(data)`: no-op after shutdown; otherwise write at `head_`,
advance `tail_` when full, advance `head_`, recompute `full_`. -/
def RingBuffer.addData {α : Type} (s : RingBuffer α) (x : α) : RingBuffer α :=
  if s.shutdown then s
  else
    { s with
      buffer := s.buffer.set s.head x,
      tail := if s.full then (s.tail + 1) % s.maxSize else s.tail,
      head := (s.head + 1) % s.maxSize,
      full := ((s.head + 1) % s.maxSize
                == if s.full then (s.tail + 1) % s.maxSize else s.tail) }

/-- The state change shared by both consume paths: clear `full_`, advance
`tail_`. -/
def RingBuffer.popped {α : Type} (s : RingBuffer α) : RingBuffer α :=
  { s with full := false, tail := (s.tail + 1) % s.maxSize }

/-- The body of `Consume()` after the condition-variable wait
(`!Empty() || shutdown_`) has passed: `None` when shut down and empty,
otherwise pop the element at `tail_`. -/
def RingBuffer.consume {α : Type} [Inhabited α] (s : RingBuffer α) :
    Option α × RingBuffer α :=
  if s.shutdown && s.emptyB then (none, s)
  else (some (s.buffer.getD s.tail default), s.popped)

/-- `TryConsume()`: `None` when empty **or** shut down, otherwise pop. -/
def RingBuffer.tryConsume {α : Type} [Inhabited α] (s : RingBuffer α) :
    Option α × RingBuffer α :=
  if s.emptyB || s.shutdown then (none, s)
  else (some (s.buffer.getD s.tail default), s.popped)

/-- `Shutdown()`: set the shutdown flag. -/
def RingBuffer.shutdownOp {α : Type} (s : RingBuffer α) : RingBuffer α :=
  { s with shutdown := true }

/-- The logical FIFO content of the buffer: the `sizeRB` unread elements
starting at `tail_`, oldest first. -/
def RingBuffer.contents {α : Type} [Inhabited α] (s : RingBuffer α) : List α :=
  (List.range s.sizeRB).map (fun i => s.buffer.getD ((s.tail + i) % s.maxSize) default)

/-- Well-formedness of a ring-buffer state, maintained by all operations:
the storage has the fixed capacity, the indices are in range, and a full
buffer has coinciding indices. -/
structure RingBuffer.WF {α : Type} (s : RingBuffer α) : Prop where
  len : s.buffer.length = s.maxSize
  head_lt : s.head < s.maxSize
  tail_lt : s.tail < s.maxSize
  full_eq : s.full = true → s.head = s.tail

/-- The segment of `d` reads of `b` starting at index `t` modulo `m`;
`contents` is definitionally `readSeg buffer maxSize tail sizeRB`. -/
def readSeg {α : Type} [Inhabited α] (b : List α) (m t d : Nat) : List α :=
  (List.range d).map (fun i => b.getD ((t + i) % m) default)

/-- `n` successive `Consume()` calls, stopping early on `None`. -/
def RingBuffer.consumeN {α : Type} [Inhabited α] :
    Nat → RingBuffer α → List α × RingBuffer α
  | 0, s => ([], s)
  | n + 1, s =>
    match s.consume with
    | (none, s') => ([], s')
    | (some v, s') =>
      let p := consumeN n s'
      (v :: p.1, p.2)

/-- The last `n` elements of a list. -/
def lastN {α : Type} (n : Nat) (l : List α) : List α :=
  l.drop (l.length - n)

/-- Concrete buffer for evaluating the claims: one element added, then
`Shutdown()`. -/
def rbShutdownOne : RingBuffer Nat :=
  ((mkRingBuffer Nat 1).addData 42).shutdownOp

/-- Concrete two-slot buffer holding one element, shut down. -/
def rbShutdownTwo : RingBuffer Nat :=
  ((mkRingBuffer Nat 2).addData 5).shutdownOp

/-! ### ECG analyzer (`src/ecg_analyzer.cpp`, `include/ecg_analyzer.h`) -/

/-- `size_t` modulus. -/
def W64 : Nat := 2 ^ 64

/-- `size_t` subtraction with wrap-around. -/
def wrapSub (a b : Nat) : Nat := (a + W64 - b) % W64

/-- `size_t` addition with wrap-around. -/
def wrapAdd (a b : Nat) : Nat := (a + b) % W64

/-- `WaveType`. -/
inductive WaveType where
  | kNormal
  | kP
  | kQ
  | kR
  | kS
  | kT
  deriving Repr, DecidableEq

/-- `Sample`: voltage (idealised as a rational), monotonic timestamp in
microseconds, classification tag. -/
structure Sample where
  voltage : ℚ
  timestamp : Int
  classification : WaveType
  deriving Repr, DecidableEq

instance : Inhabited Sample := ⟨⟨mkRat 0 1, 0, .kNormal⟩⟩

/-- `Beat`: the `size_t` landmark positions and completion flags; the
constructor `Beat(r)` sets only `r_pos`. -/
structure Beat where
  r_pos : Nat
  q_pos : Nat := 0
  s_pos : Nat := 0
  p_pos : Nat := 0
  t_pos : Nat := 0
  qrs_complete : Bool := false
  p_complete : Bool := false
  t_complete : Bool := false
  deriving Repr, DecidableEq

instance : Inhabited Beat := ⟨{ r_pos := 0 }⟩

/-- `ecg_config` constants at `kSampleRate = 250`. -/
def kSampleRate : Nat := 250

/-- `kRThreshold = 2.5f` (as the kernel-computable rational `5/2`). -/
def kRThreshold : ℚ := mkRat 5 2

/-- `kQSWindow = kSampleRate * 80 / 1000` (= 20 samples). -/
def kQSWindow : Nat := kSampleRate * 80 / 1000

/-- `kPWindow = kSampleRate * 200 / 1000` (= 50 samples). -/
def kPWindow : Nat := kSampleRate * 200 / 1000

/-- `kTWindow = kSampleRate * 400 / 1000` (= 100 samples). -/
def kTWindow : Nat := kSampleRate * 400 / 1000

/-- `kRefractoryPeriod = kSampleRate * 300 / 1000` (= 75 samples). -/
def kRefractoryPeriod : Nat := kSampleRate * 300 / 1000

/-- The analyzer's mutable state: `samples_`, `detected_beats_`,
`last_transferred_pos_`, plus the trace of samples pushed to
`buffer_classified_`. -/
structure AnalyzerState where
  samples : List Sample
  beats : List Beat
  lastTransferred : Nat
  out : List Sample
  deriving Repr, DecidableEq

/-- The analyzer's initial state. -/
def initState : AnalyzerState :=
  { samples := [], beats := [], lastTransferred := 0, out := [] }

/-- `samples_.at(i).voltage` (in-range at every use site of the source). -/
def voltAt (samples : List Sample) (i : Nat) : ℚ :=
  (samples.getD i default).voltage

/-- `ECGAnalyzer::IsRPeak(pos)`, with `size_t` arithmetic for
`samples_.size() - 1` and `pos - last_r`. -/
def isRPeak (samples : List Sample) (beats : List Beat) (pos : Nat) : Bool :=
  if pos = 0 || decide (wrapSub samples.length 1 ≤ pos) then false
  else
    let prev := voltAt samples (pos - 1)
    let curr := voltAt samples pos
    let next := voltAt samples (pos + 1)
    let is_peak := decide (prev < curr) && decide (next < curr) &&
                   decide (kRThreshold < curr)
    if beats.getLast? = none then is_peak
    else if is_peak &&
        decide (wrapSub pos ((beats.getLast?.getD default).r_pos) < kRefractoryPeriod)
      then false
    else is_peak

/-- `ECGAnalyzer::DetectRPeaks()`: examine `samples_.size() - 2` and append
a new `Beat` on detection. -/
def detectRPeaks (st : AnalyzerState) : AnalyzerState :=
  let p := st.samples.length - 2
  if isRPeak st.samples st.beats p then
    { st with beats := st.beats ++ [{ r_pos := p }] }
  else st

/-- `ECGAnalyzer::FindLowest(start, end)`: earliest index of the minimum
voltage over the **closed** range `[start, end]`; degenerate ranges return
`start`. -/
def findLowest (samples : List Sample) (start stop : Nat) : Nat :=
  if decide (start ≥ samples.length) || decide (stop ≥ samples.length) ||
     decide (start ≥ stop) then start
  else
    (List.range' (start + 1) (stop - start)).foldl
      (fun best i => if voltAt samples i < voltAt samples best then i else best)
      start

/-- `ECGAnalyzer::FindHighest(start, end)`: earliest index of the maximum
voltage over the **closed** range `[start, end]`. -/
def findHighest (samples : List Sample) (start stop : Nat) : Nat :=
  if decide (start ≥ samples.length) || decide (stop ≥ samples.length) ||
     decide (start ≥ stop) then start
  else
    (List.range' (start + 1) (stop - start)).foldl
      (fun best i => if voltAt samples best < voltAt samples i then i else best)
      start

/-- `ECGAnalyzer::CanCompleteQRS(r_pos)`. -/
def canCompleteQRS (samples : List Sample) (r : Nat) : Bool :=
  decide (r ≥ kQSWindow) && decide (wrapAdd r kQSWindow < samples.length)

/-- `ECGAnalyzer::CanCompleteP(q_pos)`. -/
def canCompleteP (q : Nat) : Bool :=
  decide (q ≥ kPWindow)

/-- `ECGAnalyzer::CanCompleteT(s_pos)`. -/
def canCompleteT (samples : List Sample) (s : Nat) : Bool :=
  decide (wrapAdd s kTWindow < samples.length)

/-- One iteration of the loop body of `ECGAnalyzer::ProcessCompleteBeats()`
on a single beat: QRS completion, then P-wave, then T-wave. -/
def completeBeat (samples : List Sample) (b : Beat) : Beat :=
  let b :=
    if !b.qrs_complete && canCompleteQRS samples b.r_pos then
      { b with
        q_pos := findLowest samples (wrapSub b.r_pos kQSWindow) b.r_pos,
        s_pos := findLowest samples (wrapAdd b.r_pos 1) (wrapAdd b.r_pos kQSWindow),
        qrs_complete := true }
    else b
  let b :=
    if b.qrs_complete && !b.p_complete && canCompleteP b.q_pos then
      { b with
        p_pos := findHighest samples (wrapSub b.q_pos kPWindow) b.q_pos,
        p_complete := true }
    else b
  let b :=
    if b.qrs_complete && !b.t_complete && canCompleteT samples b.s_pos then
      { b with
        t_pos := findHighest samples (wrapAdd b.s_pos 1) (wrapAdd b.s_pos kTWindow),
        t_complete := true }
    else b
  b

/-- `ECGAnalyzer::ProcessCompleteBeats()`. -/
def processCompleteBeats (st : AnalyzerState) : AnalyzerState :=
  { st with beats := st.beats.map (completeBeat st.samples) }

/-- Write classification `w` into `samples[i]` when `i` is in range
(the bounds guard of `ApplyClassifications`). -/
def classifyAt (samples : List Sample) (i : Nat) (w : WaveType) : List Sample :=
  if i < samples.length then
    samples.set i { samples.getD i default with classification := w }
  else samples

/-- The per-beat body of `ECGAnalyzer::ApplyClassifications()`. -/
def applyBeat (samples : List Sample) (b : Beat) : List Sample :=
  let s1 := classifyAt samples b.r_pos .kR
  let s2 :=
    if b.qrs_complete then classifyAt (classifyAt s1 b.q_pos .kQ) b.s_pos .kS
    else s1
  let s3 := if b.p_complete then classifyAt s2 b.p_pos .kP else s2
  let s4 := if b.t_complete then classifyAt s3 b.t_pos .kT else s3
  s4

/-- `ECGAnalyzer::ApplyClassifications()`. -/
def applyClassifications (st : AnalyzerState) : AnalyzerState :=
  { st with samples := st.beats.foldl applyBeat st.samples }

/-- The beat-index adjustment of the trim step: subtract the removed prefix
length (`size_t` subtraction) from the positions that have been assigned. -/
def rebaseBeat (toRemove : Nat) (b : Beat) : Beat :=
  let b := { b with r_pos := wrapSub b.r_pos toRemove }
  let b :=
    if b.qrs_complete then
      { b with q_pos := wrapSub b.q_pos toRemove, s_pos := wrapSub b.s_pos toRemove }
    else b
  let b := if b.p_complete then { b with p_pos := wrapSub b.p_pos toRemove } else b
  let b := if b.t_complete then { b with t_pos := wrapSub b.t_pos toRemove } else b
  b

/-- `ECGAnalyzer::TransferProcessedSamples()`: flush everything older than
`kTWindow` to the classified buffer, then trim the sample window and rebase
beat positions. -/
def transferProcessedSamples (st : AnalyzerState) : AnalyzerState :=
  if st.samples.length ≤ kTWindow then st
  else
    let safe := st.samples.length - kTWindow
    if safe ≤ st.lastTransferred then st
    else
      let st1 := applyClassifications st
      let st2 :=
        { st1 with
          out := st1.out ++ (st1.samples.drop st1.lastTransferred).take (safe - st1.lastTransferred),
          lastTransferred := safe }
      if st2.lastTransferred > kTWindow then
        let toRemove := st2.lastTransferred - kTWindow
        { st2 with
          samples := st2.samples.drop toRemove,
          beats := st2.beats.map (rebaseBeat toRemove),
          lastTransferred := kTWindow }
      else st2

/-- `ECGAnalyzer::ProcessSample(sample)`. -/
def processSample (st : AnalyzerState) (s : Sample) : AnalyzerState :=
  let st := { st with samples := st.samples ++ [s] }
  let st := if st.samples.length ≥ 3 then detectRPeaks st else st
  let st := processCompleteBeats st
  transferProcessedSamples st

/-- Modelled from the spec: "argmin/argmax return the earliest index
achieving the extremum", here over the **half-open** window `[lo, hi)`
demanded by the claim for the P wave (`argmax(v, [q_pos − P_WIN, q_pos))`). -/
def argmaxHalfOpen (samples : List Sample) (lo hi : Nat) : Nat :=
  (List.range' lo (hi - lo)).foldl
    (fun best i => if voltAt samples best < voltAt samples i then i else best)
    lo

/-- Modelled from the spec (§4.3 failure semantics): the analyzer's internal
invariants — `beats[i].r_pos` strictly increasing, all completed positions
within `[0, |samples|)`, `last_transferred ≤ |samples|`. -/
def analyzerInvariants (st : AnalyzerState) : Prop :=
  List.Chain' (· < ·) (st.beats.map Beat.r_pos)
  ∧ (∀ b ∈ st.beats, b.qrs_complete = true →
      b.q_pos < st.samples.length ∧ b.s_pos < st.samples.length)
  ∧ (∀ b ∈ st.beats, b.p_complete = true → b.p_pos < st.samples.length)
  ∧ (∀ b ∈ st.beats, b.t_complete = true → b.t_pos < st.samples.length)
  ∧ st.lastTransferred ≤ st.samples.length

instance (st : AnalyzerState) : Decidable (analyzerInvariants st) := by
  unfold analyzerInvariants; infer_instance

/-- Concrete input exhibiting the inclusive right endpoint of the P-wave
search window: baseline 0 V, a small rise to 1 V at index 70, a 2 V plateau,
an R spike of 3 V at index 90. -/
def pwSample (i : Nat) : Sample :=
  { voltage :=
      if i = 70 then mkRat 1 1
      else if 71 ≤ i ∧ i ≤ 89 then mkRat 2 1
      else if i = 90 then mkRat 3 1
      else mkRat 0 1,
    timestamp := 0, classification := .kNormal }

def pWaveTrace : List Sample :=
  (List.range 111).map pwSample

/-- Concrete input with R spikes at indices 1 and 150 followed by a
baseline, long enough for the trim step to underflow the first beat's
position. -/
def uwSample (i : Nat) : Sample :=
  { voltage := if i = 1 ∨ i = 150 then mkRat 3 1 else mkRat 0 1,
    timestamp := 0, classification := .kNormal }

def underflowTrace : List Sample :=
  (List.range 202).map uwSample

/-- Baseline 0 V sample. -/
def smpN : Sample := ⟨mkRat 0 1, 0, .kNormal⟩

/-- 3 V spike sample classified as an R peak. -/
def smpR : Sample := ⟨mkRat 3 1, 0, .kR⟩

/-- 0 V sample classified as a Q point. -/
def smpQ : Sample := ⟨mkRat 0 1, 0, .kQ⟩

/-- 0 V sample classified as an S point. -/
def smpS : Sample := ⟨mkRat 0 1, 0, .kS⟩

/-- 0 V sample classified as a P wave. -/
def smpP : Sample := ⟨mkRat 0 1, 0, .kP⟩

/-- The first beat of `underflowTrace` (too early ever to resolve a QRS). -/
def uwBeatA : Beat := { r_pos := 1 }

/-- The second beat of `underflowTrace` after QRS and P completion. -/
def uwBeatB : Beat :=
  { r_pos := 150, q_pos := 130, s_pos := 151, p_pos := 80,
    qrs_complete := true, p_complete := true }

/-- The first `n ∈ [101, 151]` samples of `underflowTrace` as classified by
the analyzer (only the first R peak is marked). -/
def uwClsE (n : Nat) : List Sample :=
  [smpN, smpR] ++ List.replicate (n - 2) smpN

/-- The first `n ∈ [152, 170]` samples of `underflowTrace` as classified by
the analyzer (both R peaks marked, second QRS not yet resolved). -/
def uwClsM (n : Nat) : List Sample :=
  [smpN, smpR] ++ List.replicate 148 smpN ++ [smpR]
    ++ List.replicate (n - 151) smpN

/-- The first `n ∈ [171, 200]` samples of `underflowTrace` as classified by
the analyzer (second beat's P, Q, R, S marked). -/
def uwClsF (n : Nat) : List Sample :=
  [smpN, smpR] ++ List.replicate 78 smpN ++ [smpP] ++ List.replicate 49 smpN
    ++ [smpQ] ++ List.replicate 19 smpN ++ [smpR, smpS]
    ++ List.replicate (n - 152) smpN

/-- The analyzer state after `n ∈ [101, 151]` samples of `underflowTrace`. -/
def uwMidE (n : Nat) : AnalyzerState :=
  { samples := uwClsE n, beats := [uwBeatA], lastTransferred := n - 100,
    out := (uwClsE n).take (n - 100) }

/-- The analyzer state after `n ∈ [152, 170]` samples of `underflowTrace`. -/
def uwMidM (n : Nat) : AnalyzerState :=
  { samples := uwClsM n, beats := [uwBeatA, { r_pos := 150 }],
    lastTransferred := n - 100, out := (uwClsM n).take (n - 100) }

/-- The analyzer state after `n ∈ [171, 200]` samples of `underflowTrace`. -/
def uwMidF (n : Nat) : AnalyzerState :=
  { samples := uwClsF n, beats := [uwBeatA, uwBeatB],
    lastTransferred := n - 100, out := (uwClsF n).take (n - 100) }

/-- The analyzer state after 50 samples of `underflowTrace`. -/
def uwMidA : AnalyzerState :=
  { samples := (List.range 50).map uwSample, beats := [uwBeatA],
    lastTransferred := 0, out := [] }

/-- The analyzer state after 100 samples of `underflowTrace`. -/
def uwMidB : AnalyzerState :=
  { samples := (List.range 100).map uwSample, beats := [uwBeatA],
    lastTransferred := 0, out := [] }

/-- The analyzer state after 60 samples of `pWaveTrace`. -/
def pwMid : AnalyzerState :=
  { samples := (List.range 60).map pwSample, beats := [],
    lastTransferred := 0, out := [] }

/-- A minimal three-sample trace with an R spike in the middle. -/
def spikeTrace : List Sample :=
  [⟨mkRat 0 1, 0, .kNormal⟩, ⟨mkRat 3 1, 0, .kNormal⟩, ⟨mkRat 0 1, 0, .kNormal⟩]

/-! ### Acquisition loop resynchronisation (`src/application.cpp`) -/

/-- `config::kPeriodUs` (µs). -/
def kPeriodUs : Int := 4000

/-- The 10 ms resync threshold (µs). -/
def resyncThresholdUs : Int := 10000

/-- Acquisition-loop state relevant to resynchronisation: the `uint32_t`
`expected_sample` counter and `last_warning_time` (µs). -/
structure AcqState where
  expectedSample : Nat
  lastWarning : Int
  deriving Repr, DecidableEq

/-- The target emission time of sample index `k`: `T0 + k·P` (µs). -/
def targetOf (startUs : Int) (k : Nat) : Int :=
  startUs + k * kPeriodUs

/-- The tail of one acquisition-loop iteration after the sample has been
emitted: measure `delay = now − target`, and if it exceeds 10 ms emit a
rate-limited warning and recompute `expected_sample` from elapsed real time
(`int64` division truncating toward zero, assigned to a `uint32_t`).
Returns the new state and whether a warning was logged. -/
def acqStep (startUs : Int) (st : AcqState) (now : Int) : AcqState × Bool :=
  let delay := now - targetOf startUs st.expectedSample
  if delay > resyncThresholdUs then
    let warned := decide ((now - st.lastWarning).tdiv 1000000 ≥ 1)
    let st1 := if warned then { st with lastWarning := now } else st
    ({ st1 with expectedSample := ((now - startUs).tdiv kPeriodUs).toNat % 2 ^ 32 },
     warned)
  else
    (st, false)

/-- A run of acquisition iterations: increment `expected_sample` (`uint32_t`),
run the resynchronisation tail, collect the times at which warnings were
emitted. -/
def acqRun (startUs : Int) : AcqState → List Int → AcqState × List Int
  | st, [] => (st, [])
  | st, now :: rest =>
    let st1 := { st with expectedSample := (st.expectedSample + 1) % 2 ^ 32 }
    let p := acqStep startUs st1 now
    let q := acqRun startUs p.1 rest
    (q.1, (if p.2 then [now] else []) ++ q.2)

/-! ### Binary sample record (`src/file_manager.cpp`) -/

/-- `config::kVoltageRange = 4.096f`, idealised as the exact rational. -/
def kVoltageRange : ℚ := 4096 / 1000

/-- Truncation toward zero, the semantics of `static_cast<int16_t>` on an
in-range floating value. -/
def ratTruncate (q : ℚ) : Int :=
  if 0 ≤ q then ⌊q⌋ else ⌈q⌉

/-- The raw `int16` of `FileManager::WriteSample`: scale by
`32768 / kVoltageRange`, clamp to `[-32768, 32767]`, truncate. -/
def scaleVoltage (v : ℚ) : Int :=
  let scaled := v * 32768 / kVoltageRange
  let clamped : ℚ :=
    if scaled > 32767 then 32767 else if scaled < -32768 then -32768 else scaled
  ratTruncate clamped

/-- Little-endian byte decomposition of a natural number into `n` bytes. -/
def toBytesLE : Nat → Nat → List Nat
  | 0, _ => []
  | n + 1, v => v % 256 :: toBytesLE n (v / 256)

/-- Little-endian `int16` serialisation (two's complement). -/
def int16ToBytesLE (z : Int) : List Nat :=
  toBytesLE 2 (z % 65536).toNat

/-- Little-endian `int64` serialisation (two's complement). -/
def int64ToBytesLE (z : Int) : List Nat :=
  toBytesLE 8 (z % 2 ^ 64).toNat

/-- Little-endian reassembly of a byte list. -/
def decodeUIntLE : List Nat → Nat
  | [] => 0
  | b :: bs => b + 256 * decodeUIntLE bs

/-- Decode two little-endian bytes as a two's-complement `int16`. -/
def decodeInt16LE (bytes : List Nat) : Int :=
  let u := decodeUIntLE bytes
  if u < 32768 then (u : Int) else (u : Int) - 65536

/-- Decode eight little-endian bytes as a two's-complement `int64`. -/
def decodeInt64LE (bytes : List Nat) : Int :=
  let u := decodeUIntLE bytes
  if u < 2 ^ 63 then (u : Int) else (u : Int) - 2 ^ 64

/-- The 10 bytes that `FileManager::WriteSample` appends to the binary
stream for one sample: little-endian `int16` raw voltage, then little-endian
`int64` timestamp in µs since the monotonic epoch. -/
def writeSampleBytes (v : ℚ) (tsUs : Int) : List Nat :=
  int16ToBytesLE (scaleVoltage v) ++ int64ToBytesLE tsUs

/-- `FileManager` state relevant to `WriteSample`: the CSV normalisation
reference `first_timestamp_` and the bytes of the binary stream. -/
structure FileManagerState where
  firstTimestamp : Option Int
  binBytes : List Nat
  deriving Repr, DecidableEq

/-- `FileManager::WriteSample`: latch `first_timestamp_` on the first write
(used only for the CSV stream) and append the 10-byte record — with the
**raw** timestamp, not the normalised one — to the binary stream. -/
def writeSample (st : FileManagerState) (v : ℚ) (tsUs : Int) : FileManagerState :=
  let first := st.firstTimestamp.getD tsUs
  { firstTimestamp := some first,
    binBytes := st.binBytes ++ writeSampleBytes v tsUs }

/-- Write a list of samples in order. -/
def writeAll (st : FileManagerState) (samples : List (ℚ × Int)) : FileManagerState :=
  samples.foldl (fun acc p => writeSample acc p.1 p.2) st

/-! ### TCP file server (`tcp_file_server.cpp`) -/

/-- A directory entry: name, regular-file flag, content bytes. -/
structure DirEntry where
  name : String
  isRegularFile : Bool
  content : List Nat
  deriving Repr, DecidableEq

/-- One `send` on the client socket: either a text line or a chunk of raw
file bytes. -/
inductive TCPEvent where
  | line (s : String)
  | chunk (bytes : List Nat)
  deriving Repr, DecidableEq

/-- Server state relevant to `SendAvailableFiles`: whether a client socket
is registered, and the `files_ready_` flag. -/
structure ServerState where
  clientConnected : Bool
  filesReady : Bool
  deriving Repr, DecidableEq

/-- `TCPFileServer::GetAvailableFiles()`: the names of the regular files of
the data directory, sorted. -/
def getAvailableFiles (dir : List DirEntry) : List String :=
  List.insertionSort (· ≤ ·) ((dir.filter (fun e => e.isRegularFile)).map (fun e => e.name))

/-- The directory entry a filename resolves to when the server reopens
`data_directory_ + "/" + filename`. -/
def entryFor (dir : List DirEntry) (nm : String) : DirEntry :=
  (dir.find? (fun e => e.name == nm)).getD { name := nm, isRegularFile := false, content := [] }

/-- The 8 KiB read-and-send loop of `TCPFileServer::SendFile`, written with
an explicit fuel argument (one unit per loop iteration). -/
def chunksGo : Nat → List Nat → List (List Nat)
  | 0, _ => []
  | _ + 1, [] => []
  | n + 1, a :: tl => (a :: tl).take 8192 :: chunksGo n ((a :: tl).drop 8192)

/-- The chunks `TCPFileServer::SendFile` sends for a file content: the loop
runs at most `length` iterations. -/
def chunksOf8192 (l : List Nat) : List (List Nat) := chunksGo l.length l

/-- `TCPFileServer::SendFile`: the metadata line `FILE <name> <size>`
followed by the content in 8 KiB chunks. -/
def sendFileEvents (e : DirEntry) : List TCPEvent :=
  .line ("FILE " ++ e.name ++ " " ++ toString e.content.length ++ "\n")
    :: (chunksOf8192 e.content).map .chunk

/-- `TCPFileServer::SendAvailableFiles()`: set `files_ready_`; bail out when
no client is registered; send `ERROR: No files available` when the directory
has no regular file (leaving the client registered); otherwise send the
`FILES <count>` header and each file, then close the client socket.  The
network is modelled as reliable, so the send-failure branches do not fire. -/
def sendAvailableFiles (st : ServerState) (dir : List DirEntry) :
    ServerState × List TCPEvent :=
  let st1 := { st with filesReady := true }
  if st1.clientConnected = false then (st1, [])
  else
    let files := getAvailableFiles dir
    if files.isEmpty then (st1, [.line "ERROR: No files available\n"])
    else
      ({ st1 with clientConnected := false },
       .line ("FILES " ++ toString files.length ++ "\n")
         :: files.foldr (fun nm acc => sendFileEvents (entryFor dir nm) ++ acc) [])

/-! ## Ring-buffer lemmas -/

section RingBufferLemmas

variable {α : Type} [Inhabited α]

theorem mod_shift_inj {m t i j : Nat} (hi : i < m) (hj : j < m)
    (he : (t + i) % m = (t + j) % m) : i = j := by
  have h1 : Nat.ModEq m (t + i) (t + j) := he
  have h2 : Nat.ModEq m i j := Nat.ModEq.add_left_cancel' t h1
  have h3 : i % m = j % m := h2
  rwa [Nat.mod_eq_of_lt hi, Nat.mod_eq_of_lt hj] at h3

theorem RingBuffer.contents_eq_readSeg (s : RingBuffer α) :
    s.contents = readSeg s.buffer s.maxSize s.tail s.sizeRB := rfl

theorem readSeg_succ (b : List α) (m t d : Nat) :
    readSeg b m t (d + 1) = readSeg b m t d ++ [b.getD ((t + d) % m) default] := by
  simp [readSeg, List.range_succ]

theorem readSeg_cons (b : List α) (m t d : Nat) :
    readSeg b m t (d + 1)
      = b.getD (t % m) default :: readSeg b m (t + 1) d := by
  simp only [readSeg, List.range_succ_eq_map, List.map_cons, List.map_map,
    Nat.add_zero]
  refine congrArg _ ?_
  apply List.map_congr_left
  intro i _
  simp only [Function.comp_apply]
  have he : t + i.succ = t + 1 + i := by omega
  rw [he]

theorem readSeg_mod_left (b : List α) (m t d : Nat) :
    readSeg b m (t % m) d = readSeg b m t d := by
  simp only [readSeg]
  apply List.map_congr_left
  intro i _
  rw [Nat.mod_add_mod]

theorem readSeg_length (b : List α) (m t d : Nat) :
    (readSeg b m t d).length = d := by
  simp [readSeg]

theorem readSeg_set_ne (b : List α) (m t d p : Nat) (x : α)
    (hp : ∀ i < d, (t + i) % m ≠ p) :
    readSeg (b.set p x) m t d = readSeg b m t d := by
  simp only [readSeg]
  apply List.map_congr_left
  intro i hi
  simp only [List.mem_range] at hi
  rw [List.getD_eq_getElem?_getD, List.getD_eq_getElem?_getD,
      List.getElem?_set_ne (Ne.symm (hp i hi))]

theorem RingBuffer.sizeRB_le (s : RingBuffer α) (h : s.WF) :
    s.sizeRB ≤ s.maxSize := by
  rcases h with ⟨_, hh, ht, _⟩
  unfold RingBuffer.sizeRB
  split
  · split <;> omega
  · omega

theorem RingBuffer.sizeRB_lt_of_not_full (s : RingBuffer α) (h : s.WF)
    (hf : s.full = false) : s.sizeRB < s.maxSize := by
  rcases h with ⟨_, hh, ht, _⟩
  unfold RingBuffer.sizeRB
  rw [hf]
  simp only [Bool.not_false, if_true]
  split <;> omega

theorem RingBuffer.maxSize_pos (s : RingBuffer α) (h : s.WF) : 0 < s.maxSize :=
  Nat.lt_of_le_of_lt (Nat.zero_le _) h.head_lt

theorem RingBuffer.contents_length (s : RingBuffer α) :
    s.contents.length = s.sizeRB := by
  simp [RingBuffer.contents]

theorem RingBuffer.sizeRB_eq_of_head (s : RingBuffer α) (a : Nat)
    (hf : s.full = false) (ht : s.tail < s.maxSize) (ha : a < s.maxSize)
    (hh : s.head = (s.tail + a) % s.maxSize) : s.sizeRB = a := by
  unfold RingBuffer.sizeRB
  rw [hf]
  simp only [Bool.not_false, if_true]
  rcases Nat.lt_or_ge (s.tail + a) s.maxSize with hlt | hge
  · rw [hh, Nat.mod_eq_of_lt hlt]
    split <;> omega
  · have h2 : s.head = s.tail + a - s.maxSize := by
      rw [hh, Nat.mod_eq_sub_mod hge, Nat.mod_eq_of_lt (by omega)]
    rw [h2]
    split <;> omega

theorem RingBuffer.head_eq_mod (s : RingBuffer α) (h : s.WF) :
    s.head = (s.tail + s.sizeRB) % s.maxSize := by
  rcases h with ⟨hl, hh, ht, hfe⟩
  unfold RingBuffer.sizeRB
  by_cases hf : s.full = true
  · simp only [hf, Bool.not_true, Bool.false_eq_true, if_false]
    rw [Nat.add_mod_right, Nat.mod_eq_of_lt ht, hfe hf]
  · rw [Bool.not_eq_true] at hf
    simp only [hf, Bool.not_false, if_true]
    split
    · have he : s.tail + (s.head - s.tail) = s.head := by omega
      rw [he, Nat.mod_eq_of_lt hh]
    · have he : s.tail + (s.maxSize + s.head - s.tail) = s.maxSize + s.head := by
        omega
      rw [he, Nat.add_mod_left, Nat.mod_eq_of_lt hh]

theorem RingBuffer.emptyB_iff_sizeRB (s : RingBuffer α) (h : s.WF) :
    s.emptyB = true ↔ s.sizeRB = 0 := by
  have hm := s.maxSize_pos h
  have hh := h.head_lt
  have ht := h.tail_lt
  by_cases hf : s.full = true
  · simp only [RingBuffer.emptyB, RingBuffer.sizeRB, hf, Bool.not_true,
      Bool.false_and, Bool.false_eq_true, if_false, false_iff]
    omega
  · rw [Bool.not_eq_true] at hf
    simp only [RingBuffer.emptyB, RingBuffer.sizeRB, hf, Bool.not_false,
      Bool.true_and, if_true, beq_iff_eq]
    split <;> omega

theorem RingBuffer.consume_eq_pop (s : RingBuffer α) (hne : s.emptyB = false) :
    s.consume = (some (s.buffer.getD s.tail default), s.popped) := by
  simp [RingBuffer.consume, hne]

theorem RingBuffer.popped_wf (s : RingBuffer α) (h : s.WF) : s.popped.WF := by
  refine ⟨h.len, h.head_lt, ?_, ?_⟩
  · exact Nat.mod_lt _ (s.maxSize_pos h)
  · intro hc
    exact absurd hc Bool.false_ne_true

theorem RingBuffer.popped_sizeRB (s : RingBuffer α) (h : s.WF)
    (hne : s.emptyB = false) : s.popped.sizeRB = s.sizeRB - 1 := by
  have hm := s.maxSize_pos h
  have hd : s.sizeRB ≠ 0 := by
    intro h0
    have := (s.emptyB_iff_sizeRB h).mpr h0
    rw [hne] at this
    exact Bool.false_ne_true this
  have hle := s.sizeRB_le h
  apply RingBuffer.sizeRB_eq_of_head
  · rfl
  · exact Nat.mod_lt _ hm
  · show s.sizeRB - 1 < s.maxSize
    omega
  · show s.head = ((s.tail + 1) % s.maxSize + (s.sizeRB - 1)) % s.maxSize
    rw [Nat.mod_add_mod]
    have he : s.tail + 1 + (s.sizeRB - 1) = s.tail + s.sizeRB := by omega
    rw [he]
    exact s.head_eq_mod h

theorem RingBuffer.contents_cons (s : RingBuffer α) (h : s.WF)
    (hne : s.emptyB = false) :
    s.contents = s.buffer.getD s.tail default :: s.popped.contents := by
  have hd : s.sizeRB ≠ 0 := by
    intro h0
    have := (s.emptyB_iff_sizeRB h).mpr h0
    rw [hne] at this
    exact Bool.false_ne_true this
  rw [s.contents_eq_readSeg, s.popped.contents_eq_readSeg,
      s.popped_sizeRB h hne]
  show readSeg s.buffer s.maxSize s.tail s.sizeRB
      = _ :: readSeg s.buffer s.maxSize ((s.tail + 1) % s.maxSize) (s.sizeRB - 1)
  rw [readSeg_mod_left]
  have he : s.sizeRB = (s.sizeRB - 1) + 1 := by omega
  rw [he, readSeg_cons, Nat.mod_eq_of_lt h.tail_lt, Nat.add_sub_cancel]

theorem RingBuffer.consumeN_drain (n : Nat) :
    ∀ (s : RingBuffer α), s.WF → s.sizeRB = n →
      (s.consumeN n).1 = s.contents ∧ (s.consumeN n).2.WF ∧
      (s.consumeN n).2.sizeRB = 0 ∧ (s.consumeN n).2.shutdown = s.shutdown ∧
      (s.consumeN n).2.maxSize = s.maxSize := by
  induction n with
  | zero =>
    intro s h hs
    refine ⟨?_, h, hs, rfl, rfl⟩
    have hl : s.contents.length = 0 := by rw [s.contents_length, hs]
    exact (List.eq_nil_of_length_eq_zero hl).symm
  | succ n ih =>
    intro s h hs
    have hne : s.emptyB = false := by
      cases he : s.emptyB
      · rfl
      · have := (s.emptyB_iff_sizeRB h).mp he
        omega
    have hc := s.consume_eq_pop hne
    have hps : s.popped.sizeRB = n := by
      rw [s.popped_sizeRB h hne, hs]
      omega
    obtain ⟨h1, h2, h3, h4, h5⟩ := ih s.popped (s.popped_wf h) hps
    have hstep : s.consumeN (n + 1)
        = (s.buffer.getD s.tail default :: (s.popped.consumeN n).1,
           (s.popped.consumeN n).2) := by
      simp only [RingBuffer.consumeN, hc]
    rw [hstep]
    refine ⟨?_, h2, h3, h4, h5⟩
    rw [h1, ← s.contents_cons h hne]

theorem getD_set_self (l : List α) (i : Nat) (x : α) (hi : i < l.length) :
    (l.set i x).getD i default = x := by
  rw [List.getD_eq_getElem?_getD, List.getElem?_set_eq_of_lt x hi]
  rfl

theorem RingBuffer.addData_maxSize (s : RingBuffer α) (x : α) :
    (s.addData x).maxSize = s.maxSize := by
  unfold RingBuffer.addData
  split <;> rfl

theorem RingBuffer.addData_shutdown (s : RingBuffer α) (x : α) :
    (s.addData x).shutdown = s.shutdown := by
  unfold RingBuffer.addData
  split <;> rfl

theorem RingBuffer.sizeRB_full (s : RingBuffer α) (hf : s.full = true) :
    s.sizeRB = s.maxSize := by
  unfold RingBuffer.sizeRB
  rw [hf]
  simp

theorem RingBuffer.addData_wf (s : RingBuffer α) (x : α) (h : s.WF) :
    (s.addData x).WF := by
  have hm := s.maxSize_pos h
  unfold RingBuffer.addData
  split
  · exact h
  · refine ⟨?_, ?_, ?_, ?_⟩
    · show (s.buffer.set s.head x).length = s.maxSize
      rw [List.length_set]
      exact h.len
    · show (s.head + 1) % s.maxSize < s.maxSize
      exact Nat.mod_lt _ hm
    · show (if s.full = true then (s.tail + 1) % s.maxSize else s.tail) < s.maxSize
      split
      · exact Nat.mod_lt _ hm
      · exact h.tail_lt
    · intro hb
      have hb' : ((s.head + 1) % s.maxSize
          == if s.full = true then (s.tail + 1) % s.maxSize else s.tail) = true := hb
      show (s.head + 1) % s.maxSize
          = (if s.full = true then (s.tail + 1) % s.maxSize else s.tail)
      exact beq_iff_eq.mp hb'

theorem readSeg_set_snoc (b : List α) (m t d : Nat) (x : α)
    (ht : t < m) (hd : d < m) (hlen : b.length = m) :
    readSeg (b.set ((t + d) % m) x) m t (d + 1) = readSeg b m t d ++ [x] := by
  rw [readSeg_succ]
  congr 1
  · rw [readSeg_set_ne]
    intro i hi hc
    have := mod_shift_inj (Nat.lt_trans hi hd) hd hc
    omega
  · rw [getD_set_self]
    rw [hlen]
    exact Nat.mod_lt _ (by omega)

theorem readSeg_set_rotate (b : List α) (m t : Nat) (x : α)
    (hm : 0 < m) (ht : t < m) (hlen : b.length = m) :
    readSeg (b.set t x) m (t + 1) m = (readSeg b m t m).tail ++ [x] := by
  have hm1 : m = (m - 1) + 1 := by omega
  rw [hm1, readSeg_succ, readSeg_cons, List.tail_cons]
  congr 1
  · rw [readSeg_set_ne]
    intro i hi hc
    have hc' : (t + (1 + i)) % ((m - 1) + 1) = (t + 0) % ((m - 1) + 1) := by
      have h1 : t + (1 + i) = t + 1 + i := by omega
      have h2 : (t + 0) % ((m - 1) + 1) = t := by
        have h3 : t + 0 = t := by omega
        rw [h3]
        exact Nat.mod_eq_of_lt (by omega)
      rw [h1, h2]
      exact hc
    have := mod_shift_inj (show 1 + i < (m - 1) + 1 by omega)
      (show 0 < (m - 1) + 1 by omega) hc'
    omega
  · have hidx : (t + 1 + (m - 1)) % ((m - 1) + 1) = t := by
      have he : t + 1 + (m - 1) = t + ((m - 1) + 1) := by omega
      rw [he, Nat.add_mod_right, Nat.mod_eq_of_lt (by omega)]
    rw [hidx, getD_set_self]
    rw [hlen]
    omega

theorem RingBuffer.contents_addData (s : RingBuffer α) (x : α) (h : s.WF)
    (hsd : s.shutdown = false) :
    (s.addData x).contents
      = (if s.sizeRB = s.maxSize then s.contents.tail else s.contents) ++ [x] := by
  have hm := s.maxSize_pos h
  have hh := h.head_lt
  have ht := h.tail_lt
  have hlen := h.len
  by_cases hf : s.full = true
  · -- the buffer is full: the oldest element is overwritten
    have hht : s.head = s.tail := h.full_eq hf
    have hsz : s.sizeRB = s.maxSize := by
      unfold RingBuffer.sizeRB
      rw [hf]
      simp
    have ha : s.addData x
        = ⟨s.buffer.set s.head x, (s.head + 1) % s.maxSize,
           (s.tail + 1) % s.maxSize, s.maxSize,
           ((s.head + 1) % s.maxSize == (s.tail + 1) % s.maxSize),
           s.shutdown⟩ := by
      simp [RingBuffer.addData, hsd, hf]
    have hfull' : (s.addData x).full = true := by
      rw [ha]
      show ((s.head + 1) % s.maxSize == (s.tail + 1) % s.maxSize) = true
      rw [hht]
      exact beq_self_eq_true _
    have hsz' : (s.addData x).sizeRB = s.maxSize := by
      rw [(s.addData x).sizeRB_full hfull', s.addData_maxSize]
    rw [(s.addData x).contents_eq_readSeg, hsz', ha]
    show readSeg (s.buffer.set s.head x) s.maxSize ((s.tail + 1) % s.maxSize)
        s.maxSize = _
    rw [readSeg_mod_left, hht, readSeg_set_rotate _ _ _ _ hm ht hlen,
      if_pos hsz, s.contents_eq_readSeg, hsz]
  · -- the buffer is not full: plain append
    rw [Bool.not_eq_true] at hf
    have hsz := s.sizeRB_lt_of_not_full h hf
    have hhd := s.head_eq_mod h
    have ha : s.addData x
        = ⟨s.buffer.set s.head x, (s.head + 1) % s.maxSize, s.tail, s.maxSize,
           ((s.head + 1) % s.maxSize == s.tail), s.shutdown⟩ := by
      simp [RingBuffer.addData, hsd, hf]
    have hhead' : (s.head + 1) % s.maxSize = (s.tail + (s.sizeRB + 1)) % s.maxSize := by
      rw [hhd, Nat.mod_add_mod]
      have hassoc : s.tail + s.sizeRB + 1 = s.tail + (s.sizeRB + 1) := by omega
      rw [hassoc]
    have hsz' : (s.addData x).sizeRB = s.sizeRB + 1 := by
      rcases Nat.lt_or_ge (s.sizeRB + 1) s.maxSize with hlt | hge
      · -- still not full afterwards
        have hne : (s.head + 1) % s.maxSize ≠ s.tail := by
          intro hc
          rw [hhead'] at hc
          have hc' : (s.tail + (s.sizeRB + 1)) % s.maxSize
              = (s.tail + 0) % s.maxSize := by
            have h2 : (s.tail + 0) % s.maxSize = s.tail := by
              have h3 : s.tail + 0 = s.tail := by omega
              rw [h3]
              exact Nat.mod_eq_of_lt ht
            rw [h2]
            exact hc
          have := mod_shift_inj (by omega) (by omega) hc'
          omega
        have hfull' : ((s.head + 1) % s.maxSize == s.tail) = false :=
          beq_eq_false_iff_ne.mpr hne
        rw [ha]
        exact RingBuffer.sizeRB_eq_of_head _ _ hfull' ht hlt hhead'
      · -- exactly full afterwards
        have hqe : s.sizeRB + 1 = s.maxSize := by omega
        have heq : (s.head + 1) % s.maxSize = s.tail := by
          rw [hhead', hqe, Nat.add_mod_right, Nat.mod_eq_of_lt ht]
        have hfull' : (s.addData x).full = true := by
          rw [ha]
          show ((s.head + 1) % s.maxSize == s.tail) = true
          rw [heq]
          exact beq_self_eq_true _
        rw [(s.addData x).sizeRB_full hfull', s.addData_maxSize]
        omega
    rw [(s.addData x).contents_eq_readSeg, hsz', ha]
    show readSeg (s.buffer.set s.head x) s.maxSize s.tail (s.sizeRB + 1) = _
    rw [hhd, readSeg_set_snoc _ _ _ _ _ ht hsz hlen, if_neg (by omega),
      s.contents_eq_readSeg]

theorem lastN_of_le (n : Nat) (l : List α) (h : l.length ≤ n) :
    lastN n l = l := by
  unfold lastN
  have h0 : l.length - n = 0 := by omega
  rw [h0, List.drop_zero]

theorem lastN_lastN_append (n : Nat) (l l2 : List α) :
    lastN n (lastN n l ++ l2) = lastN n (l ++ l2) := by
  rcases le_or_lt l.length n with hle | hlt
  · rw [lastN_of_le n l hle]
  · unfold lastN
    rw [List.length_append, List.length_append, List.length_drop,
      List.drop_append_eq_append_drop, List.drop_append_eq_append_drop,
      List.drop_drop, List.length_drop]
    have e1 : l.length - n + (l.length - (l.length - n) + l2.length - n)
        = l.length + l2.length - n := by omega
    have e2 : l.length - (l.length - n) + l2.length - n
        - (l.length - (l.length - n))
        = l.length + l2.length - n - l.length := by omega
    rw [e1, e2]

theorem RingBuffer.foldl_addData (xs : List α) :
    ∀ (s : RingBuffer α), s.WF → s.shutdown = false →
      (xs.foldl RingBuffer.addData s).WF ∧
      (xs.foldl RingBuffer.addData s).shutdown = false ∧
      (xs.foldl RingBuffer.addData s).maxSize = s.maxSize ∧
      (xs.foldl RingBuffer.addData s).contents = lastN s.maxSize (s.contents ++ xs) := by
  induction xs with
  | nil =>
    intro s h hsd
    refine ⟨h, hsd, rfl, ?_⟩
    rw [List.append_nil, lastN_of_le]
    · rfl
    · rw [s.contents_length]
      exact s.sizeRB_le h
  | cons x xs ih =>
    intro s h hsd
    have hm := s.maxSize_pos h
    simp only [List.foldl_cons]
    obtain ⟨h1, h2, h3, h4⟩ := ih (s.addData x) (s.addData_wf x h)
      (by rw [s.addData_shutdown]; exact hsd)
    refine ⟨h1, h2, by rw [h3, s.addData_maxSize], ?_⟩
    rw [h4, s.addData_maxSize, s.contents_addData x h hsd]
    by_cases hq : s.sizeRB = s.maxSize
    · rw [if_pos hq]
      have hlenc : s.contents.length = s.maxSize := by
        rw [s.contents_length, hq]
      have hx : s.contents.tail ++ [x] = lastN s.maxSize (s.contents ++ [x]) := by
        unfold lastN
        rw [List.length_append]
        have e1 : s.contents.length + [x].length - s.maxSize = 1 := by
          simp only [List.length_singleton]
          omega
        rw [e1, List.drop_append_eq_append_drop, List.drop_one]
        have e2 : 1 - s.contents.length = 0 := by omega
        rw [e2, List.drop_zero]
      rw [hx, lastN_lastN_append, List.append_assoc, List.singleton_append]
    · rw [if_neg hq]
      rw [List.append_assoc, List.singleton_append]

theorem mkRingBuffer_wf (C : Nat) (hC : 1 ≤ C) : (mkRingBuffer α C).WF := by
  refine ⟨?_, ?_, ?_, ?_⟩
  · simp [mkRingBuffer]
  · simpa [mkRingBuffer] using hC
  · simpa [mkRingBuffer] using hC
  · intro _
    rfl

theorem mkRingBuffer_contents (C : Nat) :
    (mkRingBuffer α C).contents = [] := rfl

/-- C4: starting from an empty non-shutdown buffer of capacity `C ≥ 1`,
adding `C + k` elements and then consuming `C` times yields exactly the last
`C` values in order: overwrite-on-full drops the `k` oldest, FIFO order is
preserved.  Each of the `C` `Consume()` calls happens on a non-empty buffer,
so the blocking wait in the source passes immediately. -/
theorem ringBuffer_overwrite_fifo (C k : Nat) (hC : 1 ≤ C)
    (xs : List α) (hlen : xs.length = C + k) :
    ((xs.foldl RingBuffer.addData (mkRingBuffer α C)).consumeN C).1 = xs.drop k := by
  obtain ⟨hwf, hsd, hms, hcont⟩ :=
    RingBuffer.foldl_addData xs (mkRingBuffer α C) (mkRingBuffer_wf C hC) rfl
  have hmk : (mkRingBuffer α C).maxSize = C := rfl
  rw [hmk] at hcont
  rw [mkRingBuffer_contents, List.nil_append] at hcont
  have hdrop : lastN C xs = xs.drop k := by
    unfold lastN
    rw [hlen]
    congr 1
    omega
  have hsz : (xs.foldl RingBuffer.addData (mkRingBuffer α C)).sizeRB = C := by
    rw [← RingBuffer.contents_length, hcont, hdrop, List.length_drop, hlen]
    omega
  obtain ⟨hd1, _, _, _, _⟩ := RingBuffer.consumeN_drain C _ hwf hsz
  rw [hd1, hcont, hdrop]

/-- Witness for `ringBuffer_overwrite_fifo` at `C = 2`, `k = 1`,
`xs = [10, 20, 30]`. -/
theorem ringBuffer_overwrite_fifo_witness :
    (([10, 20, 30].foldl RingBuffer.addData (mkRingBuffer Nat 2)).consumeN 2).1
      = [20, 30] :=
  ringBuffer_overwrite_fifo 2 1 (by decide) [10, 20, 30] (by decide)

/-- C1 (amended): `Consume` returns `None` iff the buffer is shut down and
empty, and after `Shutdown` the whole content is still drained in FIFO order
by successive `Consume` calls before the first `None`; `TryConsume`, however,
returns `None` as soon as the shutdown flag is set, without mutating the
state, even when elements are still present. -/
theorem consume_none_iff_shutdown_empty (s : RingBuffer α) (h : s.WF) :
    ((s.consume).1 = none ↔ (s.shutdown = true ∧ s.emptyB = true))
    ∧ (s.shutdown = true →
        (s.consumeN s.sizeRB).1 = s.contents
        ∧ (((s.consumeN s.sizeRB).2).consume).1 = none)
    ∧ (s.shutdown = true → s.tryConsume = (none, s)) := by
  refine ⟨?_, ?_, ?_⟩
  · unfold RingBuffer.consume
    by_cases hc : (s.shutdown && s.emptyB) = true
    · rw [if_pos hc]
      rw [Bool.and_eq_true] at hc
      exact ⟨fun _ => hc, fun _ => rfl⟩
    · rw [if_neg hc]
      rw [Bool.and_eq_true] at hc
      constructor
      · intro hcontra
        exact absurd hcontra (by simp)
      · intro hrhs
        exact absurd hrhs hc
  · intro hsd
    obtain ⟨h1, h2, h3, h4, _⟩ := RingBuffer.consumeN_drain s.sizeRB s h rfl
    refine ⟨h1, ?_⟩
    unfold RingBuffer.consume
    have he : (s.consumeN s.sizeRB).2.emptyB = true :=
      (RingBuffer.emptyB_iff_sizeRB _ h2).mpr h3
    have hsd2 : (s.consumeN s.sizeRB).2.shutdown = true := by
      rw [h4]
      exact hsd
    rw [if_pos (by rw [he, hsd2]; rfl)]
  · intro hsd
    unfold RingBuffer.tryConsume
    rw [hsd, Bool.or_true, if_pos rfl]

/-- Witness for `consume_none_iff_shutdown_empty` at a concrete shut-down
two-slot buffer holding one element. -/
theorem consume_none_iff_shutdown_empty_witness :
    ((rbShutdownTwo.consume).1 = none
      ↔ (rbShutdownTwo.shutdown = true ∧ rbShutdownTwo.emptyB = true))
    ∧ (rbShutdownTwo.shutdown = true →
        (rbShutdownTwo.consumeN rbShutdownTwo.sizeRB).1 = rbShutdownTwo.contents
        ∧ (((rbShutdownTwo.consumeN rbShutdownTwo.sizeRB).2).consume).1 = none)
    ∧ (rbShutdownTwo.shutdown = true → rbShutdownTwo.tryConsume = (none, rbShutdownTwo)) :=
  consume_none_iff_shutdown_empty rbShutdownTwo
    ⟨by decide, by decide, by decide, by decide⟩

/-- C1 counterexample: a buffer holding one element at the moment of
`Shutdown()`.  `TryConsume` immediately returns `None` and leaves the element
stranded, contradicting the claim that every element present at shutdown can
still be consumed through `TryConsume` before any `None` is returned. -/
theorem tryConsume_discards_after_shutdown :
    rbShutdownOne.contents = [42]
    ∧ rbShutdownOne.shutdown = true
    ∧ (rbShutdownOne.tryConsume).1 = none
    ∧ (rbShutdownOne.tryConsume).2 = rbShutdownOne := by
  refine ⟨?_, ?_, ?_, ?_⟩ <;> decide

/-- C9: after `Shutdown()`, `AddData` is a no-op — the state, and in
particular the stored elements, `head_`, `tail_`, the full flag, and the
results of `Empty()`, `Full()` and `Size()`, are unchanged. -/
theorem addData_after_shutdown (s : RingBuffer α) (x : α) :
    s.shutdownOp.addData x = s.shutdownOp
    ∧ (s.shutdownOp.addData x).buffer = s.buffer
    ∧ (s.shutdownOp.addData x).head = s.head
    ∧ (s.shutdownOp.addData x).tail = s.tail
    ∧ (s.shutdownOp.addData x).full = s.full
    ∧ (s.shutdownOp.addData x).emptyB = s.emptyB
    ∧ (s.shutdownOp.addData x).sizeRB = s.sizeRB := by
  have h : s.shutdownOp.addData x = s.shutdownOp := by
    simp [RingBuffer.addData, RingBuffer.shutdownOp]
  refine ⟨h, ?_, ?_, ?_, ?_, ?_, ?_⟩ <;> rw [h] <;> rfl

end RingBufferLemmas

/-! ## Analyzer evaluation lemmas

The concrete analyzer runs are evaluated by the kernel in stages: each stage
folds a bounded slice of the trace from an explicitly given intermediate
state, and the stages are stitched together with `List.foldl` splitting. -/

set_option maxRecDepth 4000
set_option linter.constructorNameAsVariable false

theorem foldl_split {α β : Type} (f : β → α → β) (i : β) (l : List α) (m : Nat) :
    l.foldl f i = (l.drop m).foldl f ((l.take m).foldl f i) := by
  conv_lhs => rw [← List.take_append_drop m l]
  rw [List.foldl_append]

theorem foldl_take_chunk {α β : Type} (f : β → α → β) (i : β) (l : List α)
    {m n : Nat} (hmn : m ≤ n) :
    (l.take n).foldl f i = ((l.take n).drop m).foldl f ((l.take m).foldl f i) := by
  conv_lhs => rw [← List.take_append_drop m (l.take n)]
  rw [List.take_take, min_eq_left hmn, List.foldl_append]

theorem range'_drop (m : Nat) :
    ∀ (s n : Nat), (List.range' s n).drop m = List.range' (s + m) (n - m) := by
  induction m with
  | zero =>
    intro s n
    simp
  | succ m ih =>
    intro s n
    cases n with
    | zero => simp
    | succ k =>
      rw [List.range'_succ, List.drop_succ_cons, ih]
      congr 1
      · omega
      · omega

theorem map_range_take {β : Type} (f : Nat → β) (N n : Nat) (hn : n ≤ N) :
    ((List.range N).map f).take n = (List.range n).map f := by
  rw [← List.map_take, List.take_range, min_eq_left hn]

theorem map_range_drop {β : Type} (f : Nat → β) (N m : Nat) :
    ((List.range N).map f).drop m = (List.range' m (N - m)).map f := by
  rw [← List.map_drop, List.range_eq_range', range'_drop, Nat.zero_add]

theorem map_range_slice {β : Type} (f : Nat → β) (N m n : Nat)
    (hmn : m ≤ n) (hn : n ≤ N) :
    (((List.range N).map f).take n).drop m = (List.range' m (n - m)).map f := by
  rw [map_range_take f N n hn, map_range_drop]

theorem uwStage50 :
    ((List.range 50).map uwSample).foldl processSample initState = uwMidA := by
  decide

theorem uwStage100 :
    ((List.range' 50 50).map uwSample).foldl processSample uwMidA = uwMidB := by
  decide

theorem uwStage125 :
    ((List.range' 100 25).map uwSample).foldl processSample uwMidB = uwMidE 125 := by
  decide

theorem uwStage150 :
    ((List.range' 125 25).map uwSample).foldl processSample (uwMidE 125)
      = uwMidE 150 := by decide

theorem uwStage170 :
    ((List.range' 150 20).map uwSample).foldl processSample (uwMidE 150)
      = uwMidM 170 := by decide

theorem uwStage172 :
    ((List.range' 170 2).map uwSample).foldl processSample (uwMidM 170)
      = uwMidF 172 := by decide

theorem uwStage186 :
    ((List.range' 172 14).map uwSample).foldl processSample (uwMidF 172)
      = uwMidF 186 := by decide

theorem uwStage200 :
    ((List.range' 186 14).map uwSample).foldl processSample (uwMidF 186)
      = uwMidF 200 := by decide

theorem uwStageFinal :
    (((List.range' 200 2).map uwSample).foldl processSample (uwMidF 200)).beats
      = [{ r_pos := 2 ^ 64 - 1 },
         { r_pos := 148, q_pos := 128, s_pos := 149, p_pos := 78,
           qrs_complete := true, p_complete := true }] := by
  decide

theorem uwRun :
    underflowTrace.foldl processSample initState
      = ((List.range' 200 2).map uwSample).foldl processSample (uwMidF 200) := by
  have hstep : ∀ (m n : Nat) (st st' : AnalyzerState), m ≤ n → n ≤ 202 →
      (underflowTrace.take m).foldl processSample initState = st →
      ((List.range' m (n - m)).map uwSample).foldl processSample st = st' →
      (underflowTrace.take n).foldl processSample initState = st' := by
    intro m n st st' hmn hn hm hseg
    rw [foldl_take_chunk processSample initState underflowTrace hmn, hm]
    show ((((List.range 202).map uwSample).take n).drop m).foldl processSample st = st'
    rw [map_range_slice uwSample 202 m n hmn hn]
    exact hseg
  have h50 : (underflowTrace.take 50).foldl processSample initState = uwMidA := by
    show (((List.range 202).map uwSample).take 50).foldl processSample initState = uwMidA
    rw [map_range_take uwSample 202 50 (by omega)]
    exact uwStage50
  have h100 := hstep 50 100 uwMidA uwMidB (by omega) (by omega) h50 uwStage100
  have h125 := hstep 100 125 uwMidB (uwMidE 125) (by omega) (by omega) h100 uwStage125
  have h150 := hstep 125 150 (uwMidE 125) (uwMidE 150) (by omega) (by omega) h125 uwStage150
  have h170 := hstep 150 170 (uwMidE 150) (uwMidM 170) (by omega) (by omega) h150 uwStage170
  have h172 := hstep 170 172 (uwMidM 170) (uwMidF 172) (by omega) (by omega) h170 uwStage172
  have h186 := hstep 172 186 (uwMidF 172) (uwMidF 186) (by omega) (by omega) h172 uwStage186
  have h200 := hstep 186 200 (uwMidF 186) (uwMidF 200) (by omega) (by omega) h186 uwStage200
  rw [foldl_split processSample initState underflowTrace 200, h200]
  show (((List.range 202).map uwSample).drop 200).foldl processSample (uwMidF 200) = _
  rw [map_range_drop]

/-- C3: the internal invariants asserted by the spec do **not** hold at every
point between two processed samples.  Because `detected_beats_` is never
pruned, the trim step's `size_t` subtraction underflows the position of a
beat older than the removed prefix: after the 202 samples of
`underflowTrace` (R spikes at indices 1 and 150, baseline elsewhere) the
first beat's `r_pos` has wrapped to `2 ^ 64 − 1` while the second beat's is
148, so `beats[i].r_pos` is no longer strictly increasing. -/
theorem analyzer_invariants_violated :
    (underflowTrace.foldl processSample initState).beats.map Beat.r_pos
        = [2 ^ 64 - 1, 148]
    ∧ ¬ analyzerInvariants (underflowTrace.foldl processSample initState) := by
  have hb : (underflowTrace.foldl processSample initState).beats.map Beat.r_pos
      = [2 ^ 64 - 1, 148] := by
    rw [uwRun, uwStageFinal]
    decide
  refine ⟨hb, ?_⟩
  intro hinv
  obtain ⟨hchain, _⟩ := hinv
  rw [hb] at hchain
  rw [List.chain'_cons] at hchain
  exact absurd hchain.1 (by decide)

theorem classifyAt_length (samples : List Sample) (i : Nat) (w : WaveType) :
    (classifyAt samples i w).length = samples.length := by
  unfold classifyAt
  split
  · rw [List.length_set]
  · rfl

theorem applyBeat_length (samples : List Sample) (b : Beat) :
    (applyBeat samples b).length = samples.length := by
  simp only [applyBeat]
  split_ifs <;> simp only [classifyAt_length]

theorem foldl_applyBeat_length (bs : List Beat) :
    ∀ (l : List Sample), (bs.foldl applyBeat l).length = l.length := by
  induction bs with
  | nil => intro l; rfl
  | cons b bs ih =>
    intro l
    rw [List.foldl_cons, ih, applyBeat_length]

theorem applyClassifications_samples_length (st : AnalyzerState) :
    (applyClassifications st).samples.length = st.samples.length :=
  foldl_applyBeat_length st.beats st.samples

theorem transfer_window (st : AnalyzerState)
    (hl : st.samples.length ≤ 2 * kTWindow + 1)
    (h2 : st.lastTransferred ≤ kTWindow) :
    (transferProcessedSamples st).samples.length ≤ 2 * kTWindow ∧
    (transferProcessedSamples st).lastTransferred ≤ kTWindow := by
  have hk : kTWindow = 100 := rfl
  have hac := applyClassifications_samples_length st
  simp only [transferProcessedSamples]
  split_ifs with hA hB hC
  · exact ⟨by omega, h2⟩
  · exact ⟨by omega, h2⟩
  · constructor
    · simp only [List.length_drop, hac]
      omega
    · simp only []
      omega
  · constructor
    · simp only [hac]
      omega
    · simp only []
      omega

theorem detectRPeaks_samples (st : AnalyzerState) :
    (detectRPeaks st).samples = st.samples
    ∧ (detectRPeaks st).lastTransferred = st.lastTransferred := by
  constructor
  · simp only [detectRPeaks]
    split
    · rfl
    · rfl
  · simp only [detectRPeaks]
    split
    · rfl
    · rfl

theorem processSample_window (st : AnalyzerState) (x : Sample)
    (h1 : st.samples.length ≤ 2 * kTWindow)
    (h2 : st.lastTransferred ≤ kTWindow) :
    (processSample st x).samples.length ≤ 2 * kTWindow ∧
    (processSample st x).lastTransferred ≤ kTWindow := by
  have he : processSample st x = transferProcessedSamples (processCompleteBeats
      (if ({ st with samples := st.samples ++ [x] } : AnalyzerState).samples.length ≥ 3
       then detectRPeaks { st with samples := st.samples ++ [x] }
       else { st with samples := st.samples ++ [x] })) := rfl
  rw [he]
  set stD := (if ({ st with samples := st.samples ++ [x] } : AnalyzerState).samples.length ≥ 3
       then detectRPeaks { st with samples := st.samples ++ [x] }
       else { st with samples := st.samples ++ [x] }) with hD
  have hsm : stD.samples.length = st.samples.length + 1 := by
    rw [hD]
    split
    · rw [(detectRPeaks_samples _).1]
      simp
    · simp
  have hlt : stD.lastTransferred = st.lastTransferred := by
    rw [hD]
    split
    · rw [(detectRPeaks_samples _).2]
    · rfl
  have hsm2 : (processCompleteBeats stD).samples.length = st.samples.length + 1 := hsm
  have hlt2 : (processCompleteBeats stD).lastTransferred = st.lastTransferred := hlt
  exact transfer_window _ (by omega) (by omega)

/-- C10: the analyzer's rolling window stays bounded on every input: after
each `ProcessSample` the sample buffer holds at most `2 · kTWindow` samples
and `last_transferred_pos_` is at most `kTWindow`. -/
theorem analyzer_window_bounded (xs : List Sample) :
    (xs.foldl processSample initState).samples.length ≤ 2 * kTWindow ∧
    (xs.foldl processSample initState).lastTransferred ≤ kTWindow := by
  have main : ∀ (ys : List Sample) (st : AnalyzerState),
      st.samples.length ≤ 2 * kTWindow → st.lastTransferred ≤ kTWindow →
      (ys.foldl processSample st).samples.length ≤ 2 * kTWindow ∧
      (ys.foldl processSample st).lastTransferred ≤ kTWindow := by
    intro ys
    induction ys with
    | nil =>
      intro st h1 h2
      exact ⟨h1, h2⟩
    | cons y ys ih =>
      intro st h1 h2
      rw [List.foldl_cons]
      obtain ⟨g1, g2⟩ := processSample_window st y h1 h2
      exact ih _ g1 g2
  exact main xs initState (by decide) (by decide)

theorem wrapSub_eq {a b : Nat} (hba : b ≤ a) (ha : a < W64) :
    wrapSub a b = a - b := by
  unfold wrapSub
  have he : a + W64 - b = W64 + (a - b) := by
    have : (0:Nat) < W64 := by decide
    omega
  rw [he, Nat.add_mod_left]
  exact Nat.mod_eq_of_lt (by omega)

theorem isRPeak_iff (samples : List Sample) (beats : List Beat)
    (h3 : 3 ≤ samples.length) (hW : samples.length < W64)
    (hlast : ∀ b, beats.getLast? = some b → b.r_pos ≤ samples.length - 2) :
    (isRPeak samples beats (samples.length - 2) = true
      ↔ (voltAt samples (samples.length - 3) < voltAt samples (samples.length - 2)
        ∧ voltAt samples (samples.length - 1) < voltAt samples (samples.length - 2)
        ∧ kRThreshold < voltAt samples (samples.length - 2)
        ∧ (beats = [] ∨ ∀ b, beats.getLast? = some b →
            kRefractoryPeriod ≤ samples.length - 2 - b.r_pos))) := by
  have hws1 : wrapSub samples.length 1 = samples.length - 1 :=
    wrapSub_eq (by omega) hW
  have hp1 : samples.length - 2 - 1 = samples.length - 3 := by omega
  have hp2 : samples.length - 2 + 1 = samples.length - 1 := by omega
  simp only [isRPeak, hws1, hp1, hp2]
  rw [if_neg (by
    simp only [Bool.or_eq_true, decide_eq_true_eq]
    omega)]
  cases hbl : beats.getLast? with
  | none =>
    have hbe : beats = [] := by
      cases beats with
      | nil => rfl
      | cons c cs => simp at hbl
    rw [if_pos rfl]
    simp only [Bool.and_eq_true, decide_eq_true_eq]
    constructor
    · rintro ⟨⟨ha, hb⟩, hc⟩
      exact ⟨ha, hb, hc, Or.inl hbe⟩
    · rintro ⟨ha, hb, hc, -⟩
      exact ⟨⟨ha, hb⟩, hc⟩
  | some b =>
    have hws : wrapSub (samples.length - 2) b.r_pos
        = samples.length - 2 - b.r_pos := wrapSub_eq (hlast b hbl) (by omega)
    rw [if_neg (by simp)]
    simp only [Option.getD_some]
    split_ifs with h1
    · rw [Bool.and_eq_true, decide_eq_true_eq] at h1
      obtain ⟨hpk, hclose⟩ := h1
      refine iff_of_false (by simp) ?_
      rintro ⟨-, -, -, hor⟩
      rcases hor with hbe | hall
      · rw [hbe] at hbl
        exact nomatch hbl
      · have := hall b rfl
        rw [hws] at hclose
        omega
    · by_cases hpk : (decide (voltAt samples (samples.length - 3)
            < voltAt samples (samples.length - 2)) &&
          decide (voltAt samples (samples.length - 1)
            < voltAt samples (samples.length - 2)) &&
          decide (kRThreshold < voltAt samples (samples.length - 2))) = true
      · have hfar : ¬ (wrapSub (samples.length - 2) b.r_pos < kRefractoryPeriod) := by
          intro hc
          exact h1 (by rw [hpk, decide_eq_true hc]; rfl)
        rw [hws] at hfar
        have hpk' := hpk
        simp only [Bool.and_eq_true, decide_eq_true_eq] at hpk'
        obtain ⟨⟨ha, hb⟩, hc⟩ := hpk'
        refine iff_of_true hpk ⟨ha, hb, hc, Or.inr ?_⟩
        intro b' hb'
        injection hb' with he
        rw [← he]
        omega
      · refine iff_of_false hpk ?_
        rintro ⟨ha, hb, hc, -⟩
        exact hpk (by
          simp only [Bool.and_eq_true, decide_eq_true_eq]
          exact ⟨⟨ha, hb⟩, hc⟩)

/-- C5: once `|samples| ≥ 3`, `DetectRPeaks` appends a new beat at
`p = |samples| − 2` iff `v[p]` strictly exceeds both neighbours and the
`2.5` threshold, and either no beat exists or `p` is at least
`kRefractoryPeriod` past the last beat's `r_pos`; otherwise the beat list is
unchanged.  In particular equality with a neighbour never detects, and no
two detected peaks lie within the refractory period. -/
theorem r_peak_detected_iff (samples : List Sample) (beats : List Beat)
    (lt0 : Nat) (out0 : List Sample)
    (h3 : 3 ≤ samples.length) (hW : samples.length < W64)
    (hlast : ∀ b, beats.getLast? = some b → b.r_pos ≤ samples.length - 2) :
    ((detectRPeaks ⟨samples, beats, lt0, out0⟩).beats
        = beats ++ [{ r_pos := samples.length - 2 }]
      ↔ (voltAt samples (samples.length - 3) < voltAt samples (samples.length - 2)
        ∧ voltAt samples (samples.length - 1) < voltAt samples (samples.length - 2)
        ∧ kRThreshold < voltAt samples (samples.length - 2)
        ∧ (beats = [] ∨ ∀ b, beats.getLast? = some b →
            kRefractoryPeriod ≤ samples.length - 2 - b.r_pos)))
    ∧ ((detectRPeaks ⟨samples, beats, lt0, out0⟩).beats = beats
      ↔ ¬ (voltAt samples (samples.length - 3) < voltAt samples (samples.length - 2)
        ∧ voltAt samples (samples.length - 1) < voltAt samples (samples.length - 2)
        ∧ kRThreshold < voltAt samples (samples.length - 2)
        ∧ (beats = [] ∨ ∀ b, beats.getLast? = some b →
            kRefractoryPeriod ≤ samples.length - 2 - b.r_pos))) := by
  have hiff := isRPeak_iff samples beats h3 hW hlast
  by_cases hpk : isRPeak samples beats (samples.length - 2) = true
  · have hb1 : (detectRPeaks ⟨samples, beats, lt0, out0⟩).beats
        = beats ++ [{ r_pos := samples.length - 2 }] := by
      simp only [detectRPeaks]
      rw [if_pos hpk]
    constructor
    · rw [hb1]
      exact iff_of_true rfl (hiff.mp hpk)
    · rw [hb1]
      refine iff_of_false (by simp) ?_
      intro hn
      exact hn (hiff.mp hpk)
  · have hb0 : (detectRPeaks ⟨samples, beats, lt0, out0⟩).beats = beats := by
      simp only [detectRPeaks]
      rw [if_neg hpk]
    constructor
    · rw [hb0]
      refine iff_of_false (by simp) ?_
      intro hrhs
      exact hpk (hiff.mpr hrhs)
    · rw [hb0]
      exact iff_of_true rfl (fun hrhs => hpk (hiff.mpr hrhs))

/-- Witness for `r_peak_detected_iff`: the three-sample spike trace, where
the middle sample is a strict peak above threshold and no beat exists yet. -/
theorem r_peak_detected_iff_witness :
    (detectRPeaks ⟨spikeTrace, [], 0, []⟩).beats = [{ r_pos := 1 }] :=
  (r_peak_detected_iff spikeTrace [] 0 [] (by decide) (by decide)
      (fun b hb => nomatch hb)).1.mpr
    ⟨by decide, by decide, by decide, Or.inl rfl⟩

theorem pwStage60 :
    ((List.range 60).map pwSample).foldl processSample initState = pwMid := by
  decide

theorem pwStageBeats :
    (((List.range' 60 51).map pwSample).foldl processSample pwMid).beats.map
        (fun b => (b.p_complete, b.q_pos, b.p_pos)) = [(true, 70, 70)] := by
  decide

theorem pwStageVolt :
    (((List.range' 60 51).map pwSample).foldl processSample pwMid).samples.map
        Sample.voltage = pWaveTrace.map Sample.voltage := by decide

theorem pwStageArgmax :
    argmaxHalfOpen (((List.range' 60 51).map pwSample).foldl
        processSample pwMid).samples (70 - kPWindow) 70 = 20 := by decide

theorem pwRun :
    pWaveTrace.foldl processSample initState
      = ((List.range' 60 51).map pwSample).foldl processSample pwMid := by
  have h60 : (pWaveTrace.take 60).foldl processSample initState = pwMid := by
    show (((List.range 111).map pwSample).take 60).foldl processSample initState = pwMid
    rw [map_range_take pwSample 111 60 (by omega)]
    exact pwStage60
  rw [foldl_split processSample initState pWaveTrace 60, h60]
  show (((List.range 111).map pwSample).drop 60).foldl processSample pwMid = _
  rw [map_range_drop]

/-- C2: the P-wave search of `ProcessCompleteBeats` scans the **closed**
window `[q_pos − P_WIN, q_pos]` — `FindHighest`'s loop runs `i ≤ end`
inclusive — so on `pWaveTrace` (baseline 0 V, a 1 V rise at index 70 that
becomes `q_pos`, a 2 V plateau, an R spike at index 90) the code sets
`p_pos = q_pos = 70`, while the earliest maximum over the half-open window
`[q_pos − P_WIN, q_pos)` demanded by the claim is index 20. -/
theorem pWave_window_includes_q_pos :
    (pWaveTrace.foldl processSample initState).beats.map
        (fun b => (b.p_complete, b.q_pos, b.p_pos)) = [(true, 70, 70)]
    ∧ (pWaveTrace.foldl processSample initState).samples.map Sample.voltage
        = pWaveTrace.map Sample.voltage
    ∧ argmaxHalfOpen (pWaveTrace.foldl processSample initState).samples
        (70 - kPWindow) 70 = 20 := by
  refine ⟨?_, ?_, ?_⟩ <;> rw [pwRun]
  · exact pwStageBeats
  · exact pwStageVolt
  · exact pwStageArgmax

/-! ## Acquisition-loop resynchronisation lemmas -/

theorem acqStep_no_resync (startUs : Int) (st : AcqState) (now : Int)
    (hd : now - targetOf startUs st.expectedSample ≤ resyncThresholdUs) :
    acqStep startUs st now = (st, false) := by
  simp only [acqStep]
  rw [if_neg (not_lt.mpr hd)]

theorem acqStep_warn_true (startUs : Int) (st : AcqState) (now : Int)
    (hd : resyncThresholdUs < now - targetOf startUs st.expectedSample)
    (hw : 1 ≤ (now - st.lastWarning).tdiv 1000000) :
    acqStep startUs st now =
      ({ expectedSample := ((now - startUs).tdiv kPeriodUs).toNat % 2 ^ 32,
         lastWarning := now }, true) := by
  simp only [acqStep]
  rw [if_pos hd, decide_eq_true hw]
  rfl

theorem acqStep_warn_false (startUs : Int) (st : AcqState) (now : Int)
    (hd : resyncThresholdUs < now - targetOf startUs st.expectedSample)
    (hw : ¬ 1 ≤ (now - st.lastWarning).tdiv 1000000) :
    acqStep startUs st now =
      ({ expectedSample := ((now - startUs).tdiv kPeriodUs).toNat % 2 ^ 32,
         lastWarning := st.lastWarning }, false) := by
  simp only [acqStep]
  rw [if_pos hd, decide_eq_false hw]
  rfl

theorem one_le_tdiv_million_iff (t : Int) :
    1 ≤ t.tdiv 1000000 ↔ 1000000 ≤ t := by
  cases t with
  | ofNat m =>
    have h0 : (Int.ofNat m).tdiv 1000000 = Int.ofNat (m / 1000000) := rfl
    rw [h0, Int.ofNat_eq_natCast, Int.ofNat_eq_natCast]
    omega
  | negSucc m =>
    have h0 : (Int.negSucc m).tdiv 1000000 = -Int.ofNat ((m + 1) / 1000000) := rfl
    rw [h0, Int.negSucc_eq, Int.ofNat_eq_natCast]
    omega

theorem acqRun_warnings (startUs : Int) :
    ∀ (nows : List Int) (st : AcqState),
      List.Chain' (fun a b => a + 1000000 ≤ b) (acqRun startUs st nows).2
      ∧ ∀ w ∈ (acqRun startUs st nows).2, st.lastWarning + 1000000 ≤ w := by
  intro nows
  induction nows with
  | nil =>
    intro st
    exact ⟨List.chain'_nil, by intro w hw; exact absurd hw (List.not_mem_nil w)⟩
  | cons now rest ih =>
    intro st
    have hrun : acqRun startUs st (now :: rest)
        = ((acqRun startUs (acqStep startUs
              { st with expectedSample := (st.expectedSample + 1) % 2 ^ 32 } now).1 rest).1,
           (if (acqStep startUs
              { st with expectedSample := (st.expectedSample + 1) % 2 ^ 32 } now).2
            then [now] else [])
             ++ (acqRun startUs (acqStep startUs
              { st with expectedSample := (st.expectedSample + 1) % 2 ^ 32 } now).1 rest).2) := rfl
    rw [hrun]
    set st1 : AcqState := { st with expectedSample := (st.expectedSample + 1) % 2 ^ 32 }
      with hst1
    by_cases hd : resyncThresholdUs < now - targetOf startUs st1.expectedSample
    · by_cases hw : 1 ≤ (now - st1.lastWarning).tdiv 1000000
      · have hstep := acqStep_warn_true startUs st1 now hd hw
        have hlw : 1000000 ≤ now - st.lastWarning := (one_le_tdiv_million_iff _).mp hw
        simp only [hstep, List.singleton_append, if_true]
        obtain ⟨ihc, ihb⟩ := ih ⟨((now - startUs).tdiv kPeriodUs).toNat % 2 ^ 32, now⟩
        have ihb' : ∀ w ∈ (acqRun startUs
            (⟨((now - startUs).tdiv kPeriodUs).toNat % 2 ^ 32, now⟩ : AcqState) rest).2,
            now + 1000000 ≤ w := ihb
        constructor
        · rw [List.chain'_cons']
          exact ⟨fun b hb => ihb' b (List.mem_of_mem_head? hb), ihc⟩
        · intro w hw2
          rcases List.mem_cons.mp hw2 with rfl | hwT
          · omega
          · have := ihb' w hwT
            omega
      · have hstep := acqStep_warn_false startUs st1 now hd hw
        simp only [hstep, List.nil_append, if_false]
        exact ih ⟨((now - startUs).tdiv kPeriodUs).toNat % 2 ^ 32, st.lastWarning⟩
    · have hstep := acqStep_no_resync startUs st1 now (not_lt.mp hd)
      simp only [hstep, List.nil_append, if_false]
      exact ih st1

theorem tdiv_toNat_mod (t : Int) (h0 : 0 ≤ t) (hlt : t < kPeriodUs * 2 ^ 32) :
    (((t.tdiv kPeriodUs).toNat % 2 ^ 32 : Nat) : Int) = t / kPeriodUs := by
  obtain ⟨m, rfl⟩ := Int.eq_ofNat_of_zero_le h0
  have h1 : ((m : Nat) : Int).tdiv kPeriodUs = ((m / 4000 : Nat) : Int) := rfl
  have h2 : ((m : Nat) : Int) / kPeriodUs = ((m / 4000 : Nat) : Int) := rfl
  have h3 : (((m / 4000 : Nat) : Int)).toNat = m / 4000 := rfl
  rw [h1, h3]
  have hm : m / 4000 < 2 ^ 32 := by
    rw [show kPeriodUs = (4000 : Int) from rfl] at hlt
    omega
  rw [Nat.mod_eq_of_lt hm, h2]

/-- C7: after a sample is emitted, a measured delay of at most 10 ms leaves
the loop state unchanged (the next target stays `T0 + (k+1)·P`), a delay
above 10 ms recomputes `expected_sample` as `floor((now − T0)/P)` so the
targets re-track real time, and the resync warnings of any run are at least
one second apart. -/
theorem acquisition_resync (startUs now : Int) (st : AcqState) (nows : List Int) :
    (now - targetOf startUs st.expectedSample ≤ resyncThresholdUs →
      acqStep startUs st now = (st, false))
    ∧ (resyncThresholdUs < now - targetOf startUs st.expectedSample →
        0 ≤ now - startUs → now - startUs < kPeriodUs * 2 ^ 32 →
        ((acqStep startUs st now).1.expectedSample : Int) = (now - startUs) / kPeriodUs)
    ∧ List.Chain' (fun a b => a + 1000000 ≤ b) (acqRun startUs st nows).2 := by
  refine ⟨acqStep_no_resync startUs st now, ?_, (acqRun_warnings startUs nows st).1⟩
  intro hd h0 hlt
  by_cases hw : 1 ≤ (now - st.lastWarning).tdiv 1000000
  · rw [acqStep_warn_true startUs st now hd hw]
    exact tdiv_toNat_mod (now - startUs) h0 hlt
  · rw [acqStep_warn_false startUs st now hd hw]
    exact tdiv_toNat_mod (now - startUs) h0 hlt

/-- Witness for `acquisition_resync`: a small delay leaves the state alone,
a 3 s delay resynchronises the index to `⌊3 000 000 / 4000⌋`, and a run with
three overdue samples emits warnings at least one second apart. -/
theorem acquisition_resync_witness :
    acqStep 0 ⟨0, 0⟩ 5000 = (⟨0, 0⟩, false)
    ∧ ((acqStep 0 ⟨0, 2000000⟩ 3000000).1.expectedSample : Int) = (3000000 - 0) / kPeriodUs
    ∧ List.Chain' (fun a b => a + 1000000 ≤ b) (acqRun 0 ⟨0, 0⟩ [20000, 500000, 1500000]).2 :=
  ⟨(acquisition_resync 0 5000 ⟨0, 0⟩ []).1 (by decide),
   (acquisition_resync 0 3000000 ⟨0, 2000000⟩ []).2.1 (by decide) (by decide) (by decide),
   (acquisition_resync 0 0 ⟨0, 0⟩ [20000, 500000, 1500000]).2.2⟩

/-! ## Binary record lemmas -/

theorem toBytesLE_length : ∀ (n v : Nat), (toBytesLE n v).length = n
  | 0, _ => rfl
  | n + 1, v => by simp [toBytesLE, toBytesLE_length n]

theorem mod_mul_decomp (q r M : Nat) (hM : 0 < M) (hr : r < 256) :
    (256 * q + r) % (256 * M) = 256 * (q % M) + r := by
  have hq := Nat.div_add_mod q M
  have he : 256 * q + r = (256 * M) * (q / M) + (256 * (q % M) + r) := by
    calc 256 * q + r = 256 * (M * (q / M) + q % M) + r := by rw [hq]
    _ = (256 * M) * (q / M) + (256 * (q % M) + r) := by ring
  rw [he, Nat.mul_add_mod]
  refine Nat.mod_eq_of_lt ?_
  have h2 : q % M + 1 ≤ M := Nat.mod_lt q hM
  calc 256 * (q % M) + r < 256 * (q % M) + 256 := by omega
  _ = 256 * (q % M + 1) := by ring
  _ ≤ 256 * M := Nat.mul_le_mul_left 256 h2

theorem decode_toBytesLE : ∀ (n v : Nat), decodeUIntLE (toBytesLE n v) = v % 256 ^ n
  | 0, v => by simp [toBytesLE, decodeUIntLE, Nat.mod_one]
  | n + 1, v => by
    simp only [toBytesLE, decodeUIntLE]
    rw [decode_toBytesLE n (v / 256)]
    have hd := mod_mul_decomp (v / 256) (v % 256) (256 ^ n)
      (pow_pos (by norm_num) n) (Nat.mod_lt v (by norm_num))
    have hv : 256 * (v / 256) + v % 256 = v := Nat.div_add_mod v 256
    rw [hv] at hd
    rw [show (256 : Nat) ^ (n + 1) = 256 * 256 ^ n from by ring, hd]
    omega

theorem decodeInt16_roundtrip (z : Int) (h1 : -32768 ≤ z) (h2 : z ≤ 32767) :
    decodeInt16LE (int16ToBytesLE z) = z := by
  simp only [decodeInt16LE, int16ToBytesLE]
  rw [decode_toBytesLE, show (256 : Nat) ^ 2 = 65536 from by norm_num]
  split_ifs with hlt
  · omega
  · omega

theorem decodeInt64_roundtrip (z : Int) (h1 : -(2 ^ 63) ≤ z) (h2 : z < 2 ^ 63) :
    decodeInt64LE (int64ToBytesLE z) = z := by
  simp only [decodeInt64LE, int64ToBytesLE]
  rw [decode_toBytesLE, show (256 : Nat) ^ 8 = 2 ^ 64 from by norm_num]
  split_ifs with hlt
  · omega
  · omega

theorem ratTruncate_bounds (q : ℚ) (h1 : -32768 ≤ q) (h2 : q ≤ 32767) :
    -32768 ≤ ratTruncate q ∧ ratTruncate q ≤ 32767 := by
  have hfloor : ⌊(32767 : ℚ)⌋ = 32767 := by norm_num
  have hceil : ⌈(-32768 : ℚ)⌉ = -32768 := by
    rw [show (-32768 : ℚ) = ((-32768 : ℤ) : ℚ) by norm_num]
    exact Int.ceil_intCast _
  unfold ratTruncate
  split_ifs with h0
  · constructor
    · have hnn : (0 : Int) ≤ ⌊q⌋ := Int.floor_nonneg.mpr h0
      omega
    · calc ⌊q⌋ ≤ ⌊(32767 : ℚ)⌋ := Int.floor_le_floor h2
      _ = 32767 := hfloor
  · constructor
    · calc (-32768 : Int) = ⌈(-32768 : ℚ)⌉ := hceil.symm
      _ ≤ ⌈q⌉ := Int.ceil_le_ceil h1
    · have hcl : ⌈q⌉ ≤ 0 := Int.ceil_le.mpr (by
        push_cast
        linarith [le_of_lt (not_le.mp h0)])
      omega

theorem scaleVoltage_bounds (v : ℚ) :
    -32768 ≤ scaleVoltage v ∧ scaleVoltage v ≤ 32767 := by
  simp only [scaleVoltage]
  refine ratTruncate_bounds _ ?_ ?_
  · split_ifs with h1 h2
    · norm_num
    · norm_num
    · exact not_lt.mp h2
  · split_ifs with h1 h2
    · norm_num
    · norm_num
    · exact not_lt.mp h1

theorem writeAll_binBytes : ∀ (samples : List (ℚ × Int)) (st : FileManagerState),
    (writeAll st samples).binBytes
      = st.binBytes ++ (samples.map (fun p => writeSampleBytes p.1 p.2)).flatten := by
  intro samples
  induction samples with
  | nil =>
    intro st
    simp [writeAll]
  | cons p rest ih =>
    intro st
    have h1 : writeAll st (p :: rest) = writeAll (writeSample st p.1 p.2) rest := rfl
    rw [h1, ih]
    simp [writeSample, List.append_assoc]

/-- C8: the binary stream is exactly the concatenation of one 10-byte record
per sample — a little-endian `int16` holding the voltage scaled by
`32768 / kVoltageRange`, clamped to `[−32768, 32767]` and truncated, followed
by a little-endian `int64` holding the **raw** timestamp in µs (not
normalised to the first sample) — with no header and no delimiter. -/
theorem binary_record_format (samples : List (ℚ × Int)) (v : ℚ) (ts : Int)
    (hts1 : -(2 ^ 63) ≤ ts) (hts2 : ts < 2 ^ 63) :
    (writeAll ⟨none, []⟩ samples).binBytes
      = (samples.map (fun p => writeSampleBytes p.1 p.2)).flatten
    ∧ (writeSampleBytes v ts).length = 10
    ∧ -32768 ≤ scaleVoltage v ∧ scaleVoltage v ≤ 32767
    ∧ decodeInt16LE ((writeSampleBytes v ts).take 2) = scaleVoltage v
    ∧ decodeInt64LE ((writeSampleBytes v ts).drop 2) = ts := by
  obtain ⟨hb1, hb2⟩ := scaleVoltage_bounds v
  have hlen16 : (int16ToBytesLE (scaleVoltage v)).length = 2 := toBytesLE_length 2 _
  have hlen64 : (int64ToBytesLE ts).length = 8 := toBytesLE_length 8 _
  refine ⟨?_, ?_, hb1, hb2, ?_, ?_⟩
  · rw [writeAll_binBytes samples ⟨none, []⟩]
    rfl
  · unfold writeSampleBytes
    rw [List.length_append, hlen16, hlen64]
  · unfold writeSampleBytes
    rw [show (2 : Nat) = (int16ToBytesLE (scaleVoltage v)).length from hlen16.symm,
        List.take_left]
    exact decodeInt16_roundtrip _ hb1 hb2
  · unfold writeSampleBytes
    rw [show (2 : Nat) = (int16ToBytesLE (scaleVoltage v)).length from hlen16.symm,
        List.drop_left]
    exact decodeInt64_roundtrip ts hts1 hts2

/-- Witness for `binary_record_format` at the single sample `(5/2 V, 123 µs)`. -/
theorem binary_record_format_witness :
    (writeAll ⟨none, []⟩ [(mkRat 5 2, 123)]).binBytes
      = ([(mkRat 5 2, 123)].map (fun p => writeSampleBytes p.1 p.2)).flatten
    ∧ (writeSampleBytes (mkRat 5 2) 123).length = 10
    ∧ -32768 ≤ scaleVoltage (mkRat 5 2) ∧ scaleVoltage (mkRat 5 2) ≤ 32767
    ∧ decodeInt16LE ((writeSampleBytes (mkRat 5 2) 123).take 2) = scaleVoltage (mkRat 5 2)
    ∧ decodeInt64LE ((writeSampleBytes (mkRat 5 2) 123).drop 2) = 123 :=
  binary_record_format [(mkRat 5 2, 123)] (mkRat 5 2) 123 (by decide) (by decide)

/-! ## TCP file server lemmas -/

theorem chunksGo_join : ∀ (n : Nat) (l : List Nat), l.length ≤ n →
    (chunksGo n l).flatten = l ∧ ∀ c ∈ chunksGo n l, c.length ≤ 8192 := by
  intro n
  induction n with
  | zero =>
    intro l hl
    have he : l = [] := List.eq_nil_of_length_eq_zero (by omega)
    subst he
    exact ⟨rfl, by intro c hc; exact absurd hc (List.not_mem_nil c)⟩
  | succ n ih =>
    intro l hl
    cases l with
    | nil => exact ⟨rfl, by intro c hc; exact absurd hc (List.not_mem_nil c)⟩
    | cons a tl =>
      have hdrop := ih ((a :: tl).drop 8192) (by
        simp only [List.length_drop, List.length_cons]
        simp only [List.length_cons] at hl
        omega)
      constructor
      · show ((a :: tl).take 8192 :: chunksGo n ((a :: tl).drop 8192)).flatten = a :: tl
        rw [List.flatten_cons, hdrop.1]
        exact List.take_append_drop 8192 (a :: tl)
      · intro c hc
        rcases List.mem_cons.mp hc with rfl | hmem
        · exact List.length_take_le 8192 (a :: tl)
        · exact hdrop.2 c hmem

theorem chunksOf8192_join_le (l : List Nat) :
    (chunksOf8192 l).flatten = l ∧ ∀ c ∈ chunksOf8192 l, c.length ≤ 8192 :=
  chunksGo_join l.length l le_rfl

theorem sendAvailableFiles_noClient (st : ServerState) (dir : List DirEntry)
    (h : st.clientConnected = false) :
    sendAvailableFiles st dir = ({ st with filesReady := true }, []) := by
  simp only [sendAvailableFiles]
  rw [if_pos h]

theorem sendAvailableFiles_emptyDir (st : ServerState) (dir : List DirEntry)
    (hc : st.clientConnected = true) (he : getAvailableFiles dir = []) :
    sendAvailableFiles st dir
      = ({ st with filesReady := true }, [.line "ERROR: No files available\n"]) := by
  simp only [sendAvailableFiles]
  rw [if_neg (by rw [hc]; simp), if_pos (by rw [he]; rfl)]

theorem sendAvailableFiles_files (st : ServerState) (dir : List DirEntry)
    (hc : st.clientConnected = true) (hne : getAvailableFiles dir ≠ []) :
    sendAvailableFiles st dir
      = ({ clientConnected := false, filesReady := true },
         .line ("FILES " ++ toString (getAvailableFiles dir).length ++ "\n")
           :: (getAvailableFiles dir).foldr
               (fun nm acc => sendFileEvents (entryFor dir nm) ++ acc) []) := by
  simp only [sendAvailableFiles]
  rw [if_neg (by rw [hc]; simp),
      if_neg (by simp only [List.isEmpty_iff]; exact hne)]

theorem sorted_getAvailableFiles (dir : List DirEntry) :
    List.Sorted (· ≤ ·) (getAvailableFiles dir)
    ∧ (getAvailableFiles dir).length = (dir.filter (fun e => e.isRegularFile)).length := by
  constructor
  · exact List.sorted_insertionSort (· ≤ ·) _
  · rw [getAvailableFiles, (List.perm_insertionSort (· ≤ ·) _).length_eq, List.length_map]

/-- C6 (amended): `SendAvailableFiles` always sets `files_ready`; with no
client it sends nothing; with a client and at least one regular file it sends
the `FILES <count>` header (count = number of regular files), then each file
in name-sorted order as `FILE <name> <size>` plus the content in chunks of at
most 8 KiB that reassemble to the content, and closes the client.  With a
client and an **empty** directory, however, it sends
`ERROR: No files available` and keeps the client connected — not the
`FILES 0` header of the claim. -/
theorem send_available_files_behaviour (st : ServerState) (dir : List DirEntry)
    (content : List Nat) :
    ((sendAvailableFiles st dir).1.filesReady = true)
    ∧ (st.clientConnected = false →
        sendAvailableFiles st dir = ({ st with filesReady := true }, []))
    ∧ (st.clientConnected = true → getAvailableFiles dir = [] →
        sendAvailableFiles st dir
          = ({ st with filesReady := true }, [.line "ERROR: No files available\n"])
        ∧ (sendAvailableFiles st dir).1.clientConnected = st.clientConnected)
    ∧ (st.clientConnected = true → getAvailableFiles dir ≠ [] →
        (sendAvailableFiles st dir).1.clientConnected = false
        ∧ (sendAvailableFiles st dir).2
          = .line ("FILES " ++ toString (getAvailableFiles dir).length ++ "\n")
            :: (getAvailableFiles dir).foldr
                (fun nm acc => sendFileEvents (entryFor dir nm) ++ acc) [])
    ∧ (getAvailableFiles dir).length = (dir.filter (fun e => e.isRegularFile)).length
    ∧ List.Sorted (· ≤ ·) (getAvailableFiles dir)
    ∧ (chunksOf8192 content).flatten = content
    ∧ (∀ c ∈ chunksOf8192 content, c.length ≤ 8192) := by
  obtain ⟨hsor, hlen⟩ := sorted_getAvailableFiles dir
  obtain ⟨hjoin, hsz⟩ := chunksOf8192_join_le content
  refine ⟨?_, ?_, ?_, ?_, hlen, hsor, hjoin, hsz⟩
  · cases hcc : st.clientConnected with
    | false => rw [sendAvailableFiles_noClient st dir hcc]
    | true =>
      by_cases he : getAvailableFiles dir = []
      · rw [sendAvailableFiles_emptyDir st dir hcc he]
      · rw [sendAvailableFiles_files st dir hcc he]
  · exact sendAvailableFiles_noClient st dir
  · intro hcc he
    rw [sendAvailableFiles_emptyDir st dir hcc he]
    exact ⟨rfl, rfl⟩
  · intro hcc hne
    rw [sendAvailableFiles_files st dir hcc hne]
    exact ⟨rfl, rfl⟩

/-- C6 counterexample: with a client connected and an empty data directory
the server sends `ERROR: No files available` and leaves the client socket
open — it does not send the `FILES 0` header followed by nothing, and it
does not close the connection. -/
theorem send_available_files_empty_dir :
    sendAvailableFiles ⟨true, false⟩ []
      = (⟨true, true⟩, [.line "ERROR: No files available\n"])
    ∧ (sendAvailableFiles ⟨true, false⟩ []).1.clientConnected = true
    ∧ (sendAvailableFiles ⟨true, false⟩ []).2
        ≠ [.line ("FILES " ++ toString (0 : Nat) ++ "\n")] := by
  refine ⟨?_, ?_, ?_⟩ <;> decide

/-- Witness for `send_available_files_behaviour` at a directory holding the
single regular file `a.bin` with one content byte. -/
theorem send_available_files_behaviour_witness :
    (sendAvailableFiles ⟨true, false⟩ [⟨"a.bin", true, [7]⟩]).1.clientConnected = false
    ∧ (sendAvailableFiles ⟨true, false⟩ [⟨"a.bin", true, [7]⟩]).2
        = [.line "FILES 1\n", .line "FILE a.bin 1\n", .chunk [7]]
    ∧ List.Sorted (· ≤ ·) (getAvailableFiles [⟨"a.bin", true, [7]⟩])
    ∧ (chunksOf8192 [1, 2, 3]).flatten = [1, 2, 3] := by
  obtain ⟨-, -, -, h4, -, hsor, hjoin, -⟩ :=
    send_available_files_behaviour ⟨true, false⟩ [⟨"a.bin", true, [7]⟩] [1, 2, 3]
  obtain ⟨ha, hb⟩ := h4 rfl (by decide)
  refine ⟨ha, ?_, hsor, hjoin⟩
  rw [hb]
  decide

end CardiacMonitor
